import Mathlib

/-!
Shallow embedding of the cross-cursors repository (src/main.py and
src/client.py) for checking its natural-language specification.

Conventions of the embedding:
* Python ints are modelled as `Int`; Python floats are modelled as exact
  rationals `ℚ` (the receiver's scaling arithmetic is two floating-point
  operations on small integer inputs; we model the exact real value).
* Stateful Python objects (`CornerWatcher`, `MouseSocketServer`) become
  structures with explicit state-passing: each method returns the new state
  together with its observable output.
* Fallible Python code returns `Except PyErr`; a raised-and-uncaught
  exception is `.error`, a caught one is handled exactly where the source
  catches it.
* Byte strings are `List Nat` (byte values); Python `str` is `List Char`.
-/

namespace CrossCursors

set_option maxRecDepth 8000

/-! ## Geometry model (QRect as used by the source) -/

structure QRect where
  x : Int
  y : Int
  width : Int
  height : Int
deriving DecidableEq, Repr

structure Screen where
  name : String
  geometry : QRect
deriving DecidableEq, Repr

/-- Embedding of `_is_in_corner` (src/main.py lines 131-147): return true if
`(x, y)` is inside the target corner hotzone of `geometry`; any position
string other than the four known ones falls back to bottom-left. -/
def is_in_corner (geometry : QRect) (x y : Int) (threshold : Int)
    (position : String) : Bool :=
  let tx := geometry.x
  let ty := geometry.y
  let w := geometry.width
  let h := geometry.height
  if position = "bottom-left" then
    decide (x ≤ tx + threshold ∧ y ≥ ty + h - threshold)
  else if position = "bottom-right" then
    decide (x ≥ tx + w - threshold ∧ y ≥ ty + h - threshold)
  else if position = "top-left" then
    decide (x ≤ tx + threshold ∧ y ≤ ty + threshold)
  else if position = "top-right" then
    decide (x ≥ tx + w - threshold ∧ y ≤ ty + threshold)
  else
    decide (x ≤ tx + threshold ∧ y ≥ ty + h - threshold)

/-! ## CornerWatcher (src/main.py lines 191-257)

The watcher's mutable attributes form the state; `QCursor.pos()` and
`QGuiApplication.screens()` are passed in explicitly at each poll, and the
`_post_to_gui(self._on_enter)` side effect is returned as a Bool flag. -/

structure CornerWatcher where
  threshold_px : Int
  position : String
  target_screen_name : Option String
  enabled : Bool
  in_corner : Bool
deriving DecidableEq, Repr

/-- Embedding of `CornerWatcher.__init__`: clamps the threshold to at least 1,
starts enabled with the latch down. -/
def CornerWatcher.init (threshold_px : Int) (position : String)
    (screen_name : Option String) : CornerWatcher :=
  { threshold_px := max 1 threshold_px
    position := position
    target_screen_name := screen_name
    enabled := true
    in_corner := false }

/-- Embedding of `CornerWatcher.set_threshold` (src/main.py lines 212-213). -/
def set_threshold (w : CornerWatcher) (threshold_px : Int) : CornerWatcher :=
  { w with threshold_px := max 1 threshold_px }

/-- Embedding of `CornerWatcher.set_position` (src/main.py lines 215-217). -/
def set_position (w : CornerWatcher) (position : String) : CornerWatcher :=
  { w with position := position, in_corner := false }

/-- Embedding of `CornerWatcher.set_screen_name` (src/main.py lines 219-221). -/
def set_screen_name (w : CornerWatcher) (screen_name : Option String) :
    CornerWatcher :=
  { w with target_screen_name := screen_name, in_corner := false }

/-- Embedding of `CornerWatcher.set_enabled` (src/main.py lines 223-226). -/
def set_enabled (w : CornerWatcher) (enabled : Bool) : CornerWatcher :=
  { w with enabled := enabled, in_corner := false }

/-- The display subset tested by `_poll_cursor`: the named target screen when
the name is set (Python truthiness: `None` and `""` are both falsy) and
present in the topology, else all screens. -/
def screens_to_check (w : CornerWatcher) (screens : List Screen) :
    List Screen :=
  let target : Option Screen :=
    match w.target_screen_name with
    | none => none
    | some n => if n = "" then none else screens.find? (fun s => s.name = n)
  match target with
  | some s => [s]
  | none => screens

/-- Containment of the cursor in any selected screen's hot corner, as computed
by the loop in `_poll_cursor` (src/main.py lines 243-248). -/
def in_any_corner (w : CornerWatcher) (x y : Int) (screens : List Screen) :
    Bool :=
  (screens_to_check w screens).any
    (fun s => is_in_corner s.geometry x y w.threshold_px w.position)

/-- Embedding of `CornerWatcher._poll_cursor` (src/main.py lines 228-254).
Returns the new state and whether the enter notification fired this cycle.
Disabled watchers and an empty screen list return early, unchanged. -/
def poll_cursor (w : CornerWatcher) (x y : Int) (screens : List Screen) :
    CornerWatcher × Bool :=
  if w.enabled = false then (w, false)
  else if screens = [] then (w, false)
  else
    let hit := in_any_corner w x y screens
    if hit = true ∧ w.in_corner = false then
      ({ w with in_corner := true }, true)
    else if hit = false ∧ w.in_corner = true then
      ({ w with in_corner := false }, false)
    else (w, false)

/-- A sequence of poll cycles against a fixed topology, accumulating how many
times the enter notification fired. -/
def poll_run (w : CornerWatcher) (ps : List (Int × Int))
    (screens : List Screen) : CornerWatcher × Nat :=
  ps.foldl
    (fun acc p =>
      let r := poll_cursor acc.1 p.1 p.2 screens
      (r.1, acc.2 + (if r.2 then 1 else 0)))
    (w, 0)

/-! ## MouseSocketServer (src/main.py lines 58-128)

Peers are identified by `Nat` ids standing for the distinct socket objects in
`self._clients`. Whether `conn.sendall` raises `OSError` for a given peer on
this broadcast pass is supplied as the oracle `sendFails`. The whole
`broadcast` body runs under `self._clients_lock`, so it is modelled as one
atomic state transition; the returned list holds the peers that received the
frame, in iteration order. -/

structure MouseSocketServer where
  running : Bool
  clients : List Nat
deriving DecidableEq, Repr

/-- Embedding of `MouseSocketServer.__init__`: not running, empty registry. -/
def MouseSocketServer.init : MouseSocketServer :=
  { running := false, clients := [] }

/-- Embedding of `MouseSocketServer.broadcast` (src/main.py lines 94-111):
an early return when not running; otherwise one send attempt per registered
peer, failures collected into `stale`, then each stale peer is closed and
removed (first occurrence) from the registry. -/
def broadcast (s : MouseSocketServer) (sendFails : Nat → Bool) :
    MouseSocketServer × List Nat :=
  if s.running = false then (s, [])
  else
    let delivered := s.clients.filter (fun c => !sendFails c)
    let stale := s.clients.filter (fun c => sendFails c)
    let clients' :=
      stale.foldl (fun cs c => if cs.contains c then cs.erase c else cs)
        s.clients
    ({ s with clients := clients' }, delivered)

/-- Embedding of `MouseSocketServer.stop` (src/main.py lines 113-128): clears
the running flag, closes every peer, empties the registry. -/
def MouseSocketServer.stop (_s : MouseSocketServer) : MouseSocketServer :=
  { running := false, clients := [] }

/-! ## IEEE-754 binary64 model

Python floats are IEEE-754 double-precision values. Finite doubles are
dyadic rationals, so we carry the exact value as a `ℚ` and model every
operation by rounding the exact real result to the nearest representable
value (ties to even), exactly as the hardware does. `-0.0` is collapsed to
`0`: the dispatch code can only observe a float through `== 0`-style
comparisons, truthiness and `int()`, none of which distinguish the two
zeros. -/

/-- A Python float: a binary64 value. -/
inductive PyFloat where
  | finite (q : ℚ)
  | inf
  | neginf
  | nan
deriving DecidableEq

/-- `⌊log₂ n⌋` by structural recursion on a fuel bound (the library `log`
functions use well-founded recursion, which the kernel cannot evaluate on
concrete inputs). -/
def natLog2F : Nat → Nat → Nat
  | 0, _ => 0
  | fuel + 1, n => if n ≤ 1 then 0 else natLog2F fuel (n / 2) + 1

def natLog2 (n : Nat) : Nat := natLog2F n n

/-- Powers of two with integer exponent, as rationals (computed through
`Nat.pow`, which evaluates fast; `pow2_eq_zpow` bridges to `zpow` for
reasoning). -/
def pow2 (k : Int) : ℚ :=
  if 0 ≤ k then ((2 ^ k.toNat : Nat) : ℚ)
  else (((2 ^ (-k).toNat : Nat) : ℚ))⁻¹

/-- Powers of ten with integer exponent, as rationals. -/
def pow10q (e : Int) : ℚ :=
  if 0 ≤ e then ((10 ^ e.toNat : Nat) : ℚ)
  else (((10 ^ (-e).toNat : Nat) : ℚ))⁻¹

/-- Round a rational to an integer: nearest, ties to even. -/
def roundHalfEven (t : ℚ) : Int :=
  if t - (⌊t⌋ : ℚ) < 1 / 2 then ⌊t⌋
  else if 1 / 2 < t - (⌊t⌋ : ℚ) then ⌊t⌋ + 1
  else if ⌊t⌋ % 2 = 0 then ⌊t⌋ else ⌊t⌋ + 1

/-- `⌊log₂ q⌋` for a positive rational (the quotient of the `natLog2`s of
numerator and denominator is off by at most one; the comparisons pick the
exact floor). -/
def floorLog2Rat (q : ℚ) : Int :=
  if pow2 ((natLog2 q.num.toNat : Int) - (natLog2 q.den : Int) + 1) ≤ q then
    (natLog2 q.num.toNat : Int) - (natLog2 q.den : Int) + 1
  else if pow2 ((natLog2 q.num.toNat : Int) - (natLog2 q.den : Int)) ≤ q then
    (natLog2 q.num.toNat : Int) - (natLog2 q.den : Int)
  else (natLog2 q.num.toNat : Int) - (natLog2 q.den : Int) - 1

/-- The rounding granularity (exponent of the unit in the last place) used
for a positive magnitude `a`: 53 significant bits for normal values,
clamped at 2^-1074 for subnormals. -/
def flE (a : ℚ) : Int := max (floorLog2Rat a - 52) (-1074)

/-- A positive magnitude rounded to the nearest multiple of its granularity,
ties to even (the exact value of the rounded significand times the
granularity, before the overflow check). -/
def flVal (a : ℚ) : ℚ :=
  (roundHalfEven (a / pow2 (flE a)) : ℚ) * pow2 (flE a)

/-- Correct rounding of an exact real (rational) to binary64: round to
nearest with ties to even at 53 significant bits, gradual underflow at
2^-1074, and overflow to infinity exactly when the rounded value (with
unbounded exponent) reaches 2^1024. -/
def flRound (x : ℚ) : PyFloat :=
  if x = 0 then .finite 0
  else if pow2 1024 ≤ flVal |x| then (if x < 0 then .neginf else .inf)
  else if flVal |x| = 0 then .finite 0
  else .finite (if x < 0 then -(flVal |x|) else flVal |x|)

/-! ## Client-side data model (src/client.py)

JSON values as produced by `json.loads`: numbers are Python ints
(arbitrary precision, `intNum`) or Python floats (`floatNum`, a binary64
value — produced by decimal literals with a fraction or exponent and by
the accepted constants `NaN`/`Infinity`/`-Infinity`). Python `None` (both
an absent key and a JSON `null` value, which `dict.get` conflates) is
`Option.none` at use sites via `getN`. -/

inductive Json where
  | null
  | bool (b : Bool)
  | intNum (n : Int)
  | floatNum (f : PyFloat)
  | str (s : List Char)
  | arr (xs : List Json)
  | obj (fields : List (List Char × Json))

inductive PyErr where
  | unicodeDecodeError
  | attributeError
  | typeError
  | valueError
  | zeroDivisionError
  | overflowError
deriving DecidableEq, Repr

inductive Button where
  | left
  | right
  | middle
deriving DecidableEq, Repr

/-- Calls made on the pynput `Controller` sink (`mouse.position = _`,
`mouse.press`, `mouse.release`, `mouse.scroll`). -/
inductive InjectCall where
  | moveTo (x y : Int)
  | press (b : Button)
  | release (b : Button)
  | scroll (dx dy : Int)
deriving DecidableEq, Repr

/-! ### Strict UTF-8 codec (model of `bytes.decode("utf-8")` / encoding) -/

def contByte (b : Nat) : Bool := decide (0x80 ≤ b ∧ b ≤ 0xBF)

/-- Strict UTF-8 decoding of a byte list, rejecting truncated sequences,
overlong encodings and surrogate code points, as Python's
`bytes.decode("utf-8")` does (which raises `UnicodeDecodeError`, modelled
by `none`). -/
def utf8Decode : List Nat → Option (List Char)
  | [] => some []
  | b :: rest =>
    if b ≤ 0x7F then
      match utf8Decode rest with
      | some cs => some (Char.ofNat b :: cs)
      | none => none
    else if 0xC2 ≤ b ∧ b ≤ 0xDF then
      match rest with
      | b2 :: r =>
        if contByte b2 then
          match utf8Decode r with
          | some cs => some (Char.ofNat ((b - 0xC0) * 0x40 + (b2 - 0x80)) :: cs)
          | none => none
        else none
      | [] => none
    else if 0xE0 ≤ b ∧ b ≤ 0xEF then
      match rest with
      | b2 :: b3 :: r =>
        let lo2 := if b = 0xE0 then 0xA0 else 0x80
        let hi2 := if b = 0xED then 0x9F else 0xBF
        if lo2 ≤ b2 ∧ b2 ≤ hi2 ∧ contByte b3 then
          match utf8Decode r with
          | some cs =>
            some (Char.ofNat ((b - 0xE0) * 0x1000 + (b2 - 0x80) * 0x40 + (b3 - 0x80)) :: cs)
          | none => none
        else none
      | _ => none
    else if 0xF0 ≤ b ∧ b ≤ 0xF4 then
      match rest with
      | b2 :: b3 :: b4 :: r =>
        let lo2 := if b = 0xF0 then 0x90 else 0x80
        let hi2 := if b = 0xF4 then 0x8F else 0xBF
        if lo2 ≤ b2 ∧ b2 ≤ hi2 ∧ contByte b3 ∧ contByte b4 then
          match utf8Decode r with
          | some cs =>
            some (Char.ofNat ((b - 0xF0) * 0x40000 + (b2 - 0x80) * 0x1000 +
              (b3 - 0x80) * 0x40 + (b4 - 0x80)) :: cs)
          | none => none
        else none
      | _ => none
    else none

/-- UTF-8 encoding of one scalar value (used to build concrete wire bytes). -/
def utf8EncodeCharBytes (c : Char) : List Nat :=
  let n := c.toNat
  if n ≤ 0x7F then [n]
  else if n ≤ 0x7FF then [0xC0 + n / 0x40, 0x80 + n % 0x40]
  else if n ≤ 0xFFFF then
    [0xE0 + n / 0x1000, 0x80 + n / 0x40 % 0x40, 0x80 + n % 0x40]
  else
    [0xF0 + n / 0x40000, 0x80 + n / 0x1000 % 0x40, 0x80 + n / 0x40 % 0x40,
      0x80 + n % 0x40]

/-- The UTF-8 bytes of a string literal. -/
def strBytes (s : String) : List Nat :=
  s.data.foldr (fun c acc => utf8EncodeCharBytes c ++ acc) []

/-! ### JSON text grammar (model of `json.loads`) -/

def lbrace : Char := Char.ofNat 123
def rbrace : Char := Char.ofNat 125

def jsonWs (c : Char) : Bool := c = ' ' ∨ c = '\t' ∨ c = '\n' ∨ c = '\r'

def skipWs : List Char → List Char
  | [] => []
  | c :: t => if jsonWs c then skipWs t else c :: t

def isDigit (c : Char) : Bool := decide ('0' ≤ c ∧ c ≤ '9')

def digitVal (c : Char) : Nat := c.toNat - 48

def takeDigits : List Char → List Char × List Char
  | [] => ([], [])
  | c :: t =>
    if isDigit c then
      let p := takeDigits t
      (c :: p.1, p.2)
    else ([], c :: t)

def digitsVal (ds : List Char) : Nat :=
  ds.foldl (fun a c => a * 10 + digitVal c) 0

def hexVal (c : Char) : Option Nat :=
  if isDigit c then some (digitVal c)
  else if 'a' ≤ c ∧ c ≤ 'f' then some (c.toNat - 87)
  else if 'A' ≤ c ∧ c ≤ 'F' then some (c.toNat - 55)
  else none

/-- Assemble a parsed JSON number `sign (ip . frac) e ex`. A literal with a
fraction or an exponent is a Python float — the exact decimal value is
correctly rounded to binary64, with overflow going to infinity (as
`float()` does on text) — while a plain integer literal is a Python int of
arbitrary precision. `f` are the fraction digits (count `k`), `ex` the
signed exponent. -/
def mkJsonNum (neg : Bool) (ip f : Nat) (k : Nat) (ex : Int)
    (isFloat : Bool) : Json :=
  if isFloat then
    let mag : Int := ((ip * 10 ^ k + f : Nat) : Int)
    let m0 : Int := if neg then -mag else mag
    .floatNum (flRound ((m0 : ℚ) * pow10q (ex - (k : Int))))
  else .intNum (if neg then -(ip : Int) else (ip : Int))

/-- Parse a JSON number at the head of the input (JSON grammar: an optional
minus, `0` or a nonzero-led digit run, optional fraction, optional
exponent). -/
def parseNumber (cs : List Char) : Option (Json × List Char) :=
  let p : Option (Bool × List Char) :=
    match cs with
    | '-' :: t => some (true, t)
    | _ => some (false, cs)
  match p with
  | some (neg, cs1) =>
    let ipPart : Option (Nat × List Char) :=
      match cs1 with
      | c :: t =>
        if c = '0' then some (0, t)
        else if isDigit c then
          let d := takeDigits (c :: t)
          some (digitsVal d.1, d.2)
        else none
      | [] => none
    match ipPart with
    | none => none
    | some (ip, rest1) =>
      let fracPart : Option (Nat × Nat × List Char × Bool) :=
        match rest1 with
        | '.' :: t2 =>
          match takeDigits t2 with
          | ([], _) => none
          | (fs, rest2) => some (digitsVal fs, fs.length, rest2, true)
        | _ => some (0, 0, rest1, false)
      match fracPart with
      | none => none
      | some (f, k, rest2, isF) =>
        let expPart : Option (Int × List Char × Bool) :=
          match rest2 with
          | e :: t3 =>
            if e = 'e' ∨ e = 'E' then
              match t3 with
              | '-' :: t4 =>
                match takeDigits t4 with
                | ([], _) => none
                | (es, rest3) => some (-(digitsVal es : Int), rest3, true)
              | '+' :: t4 =>
                match takeDigits t4 with
                | ([], _) => none
                | (es, rest3) => some ((digitsVal es : Int), rest3, true)
              | _ =>
                match takeDigits t3 with
                | ([], _) => none
                | (es, rest3) => some ((digitsVal es : Int), rest3, true)
            else some (0, rest2, false)
          | [] => some (0, rest2, false)
        match expPart with
        | none => none
        | some (ex, rest3, isE) =>
          some (mkJsonNum neg ip f k ex (isF || isE), rest3)
  | none => none

/-- Parse the body of a JSON string after the opening quote, handling the
escape sequences Python's json module accepts (including `\uXXXX` with
surrogate-pair combination; strict mode rejects raw control characters). -/
def parseJString : Nat → List Char → Option (List Char × List Char)
  | 0, _ => none
  | _, [] => none
  | fuel + 1, c :: t =>
    if c = '"' then some ([], t)
    else if c = '\\' then
      match t with
      | 'u' :: h1 :: h2 :: h3 :: h4 :: t2 =>
        match hexVal h1, hexVal h2, hexVal h3, hexVal h4 with
        | some n1, some n2, some n3, some n4 =>
          let n := ((n1 * 16 + n2) * 16 + n3) * 16 + n4
          if 0xD800 ≤ n ∧ n ≤ 0xDBFF then
            match t2 with
            | '\\' :: 'u' :: g1 :: g2 :: g3 :: g4 :: t3 =>
              match hexVal g1, hexVal g2, hexVal g3, hexVal g4 with
              | some m1, some m2, some m3, some m4 =>
                let m := ((m1 * 16 + m2) * 16 + m3) * 16 + m4
                if 0xDC00 ≤ m ∧ m ≤ 0xDFFF then
                  let cp := 0x10000 + (n - 0xD800) * 0x400 + (m - 0xDC00)
                  match parseJString fuel t3 with
                  | some (s, r) => some (Char.ofNat cp :: s, r)
                  | none => none
                else
                  match parseJString fuel t2 with
                  | some (s, r) => some (Char.ofNat n :: s, r)
                  | none => none
              | _, _, _, _ =>
                match parseJString fuel t2 with
                | some (s, r) => some (Char.ofNat n :: s, r)
                | none => none
            | _ =>
              match parseJString fuel t2 with
              | some (s, r) => some (Char.ofNat n :: s, r)
              | none => none
          else
            match parseJString fuel t2 with
            | some (s, r) => some (Char.ofNat n :: s, r)
            | none => none
        | _, _, _, _ => none
      | e :: t2 =>
        let esc : Option Char :=
          if e = '"' then some '"'
          else if e = '\\' then some '\\'
          else if e = '/' then some '/'
          else if e = 'b' then some (Char.ofNat 8)
          else if e = 'f' then some (Char.ofNat 12)
          else if e = 'n' then some (Char.ofNat 10)
          else if e = 'r' then some (Char.ofNat 13)
          else if e = 't' then some (Char.ofNat 9)
          else none
        match esc with
        | some ec =>
          match parseJString fuel t2 with
          | some (s, r) => some (ec :: s, r)
          | none => none
        | none => none
      | [] => none
    else if c.toNat < 32 then none
    else
      match parseJString fuel t with
      | some (s, r) => some (c :: s, r)
      | none => none

mutual

/-- Parse one JSON value (after optional leading whitespace). The fuel is an
upper bound on recursion depth; `json_loads` supplies `length + 1`, which
suffices because every recursive call consumes at least one character. -/
def parseValue : Nat → List Char → Option (Json × List Char)
  | 0, _ => none
  | fuel + 1, cs =>
    match skipWs cs with
    | [] => none
    | c :: t =>
      if c = lbrace then parseObjBody fuel t
      else if c = '[' then parseArrBody fuel t
      else if c = '"' then
        match parseJString (t.length + 1) t with
        | some (s, r) => some (.str s, r)
        | none => none
      else if c = 't' then
        match t with
        | 'r' :: 'u' :: 'e' :: r => some (.bool true, r)
        | _ => none
      else if c = 'f' then
        match t with
        | 'a' :: 'l' :: 's' :: 'e' :: r => some (.bool false, r)
        | _ => none
      else if c = 'n' then
        match t with
        | 'u' :: 'l' :: 'l' :: r => some (.null, r)
        | _ => none
      else if c = 'N' then
        match t with
        | 'a' :: 'N' :: r => some (.floatNum .nan, r)
        | _ => none
      else if c = 'I' then
        match t with
        | 'n' :: 'f' :: 'i' :: 'n' :: 'i' :: 't' :: 'y' :: r =>
          some (.floatNum .inf, r)
        | _ => none
      else if c = '-' then
        match t with
        | 'I' :: 'n' :: 'f' :: 'i' :: 'n' :: 'i' :: 't' :: 'y' :: r =>
          some (.floatNum .neginf, r)
        | _ => parseNumber (c :: t)
      else parseNumber (c :: t)

/-- Body of a JSON object, after the opening brace. -/
def parseObjBody : Nat → List Char → Option (Json × List Char)
  | 0, _ => none
  | fuel + 1, cs =>
    match skipWs cs with
    | [] => none
    | c :: t =>
      if c = rbrace then some (.obj [], t)
      else
        match parsePairs fuel (c :: t) with
        | some (ps, r) => some (.obj ps, r)
        | none => none

/-- One or more comma-separated `"key": value` members, then the closing
brace. -/
def parsePairs : Nat → List Char →
    Option (List (List Char × Json) × List Char)
  | 0, _ => none
  | fuel + 1, cs =>
    match skipWs cs with
    | '"' :: t =>
      match parseJString (t.length + 1) t with
      | some (k, r1) =>
        match skipWs r1 with
        | ':' :: r2 =>
          match parseValue fuel r2 with
          | some (v, r3) =>
            match skipWs r3 with
            | ',' :: r4 =>
              match parsePairs fuel r4 with
              | some (ps, r5) => some ((k, v) :: ps, r5)
              | none => none
            | c :: r4 =>
              if c = rbrace then some ([(k, v)], r4) else none
            | [] => none
          | none => none
        | _ => none
      | none => none
    | _ => none

/-- Body of a JSON array, after the opening bracket. -/
def parseArrBody : Nat → List Char → Option (Json × List Char)
  | 0, _ => none
  | fuel + 1, cs =>
    match skipWs cs with
    | [] => none
    | ']' :: t => some (.arr [], t)
    | c :: t =>
      match parseElems fuel (c :: t) with
      | some (xs, r) => some (.arr xs, r)
      | none => none

/-- One or more comma-separated array elements, then the closing bracket. -/
def parseElems : Nat → List Char → Option (List Json × List Char)
  | 0, _ => none
  | fuel + 1, cs =>
    match parseValue fuel cs with
    | some (v, r1) =>
      match skipWs r1 with
      | ',' :: r2 =>
        match parseElems fuel r2 with
        | some (xs, r3) => some (v :: xs, r3)
        | none => none
      | ']' :: r2 => some ([v], r2)
      | _ => none
    | none => none

end

/-- Model of `json.loads` applied to the decoded line: parse one JSON value
and require only trailing whitespace after it; `none` is a
`json.JSONDecodeError` (which the read loops catch and swallow). -/
def json_loads (cs : List Char) : Option Json :=
  match parseValue (cs.length + 1) cs with
  | some (v, rest) => if skipWs rest = [] then some v else none
  | none => none

/-! ### Python dynamic semantics used by `handle_payload` -/

/-- `dict.get(k)` before the `None` collapse: the value of the last binding
of `k` (later duplicate JSON keys overwrite earlier ones in the Python
dict). -/
def lookupLast (fields : List (List Char × Json)) (k : List Char) :
    Option Json :=
  fields.foldl (fun acc p => if p.1 = k then some p.2 else acc) none

/-- `dict.get(k)` as observed through `is None` checks: a JSON `null` value
and an absent key are both Python `None`. -/
def getN (fields : List (List Char × Json)) (k : List Char) : Option Json :=
  match lookupLast fields k with
  | some .null => none
  | o => o

/-- Python truthiness of a decoded JSON value (`nan` and the infinities are
truthy; `0`, `0.0` and `-0.0` are falsy). -/
def pyTruthy : Json → Bool
  | .null => false
  | .bool b => b
  | .intNum n => n ≠ 0
  | .floatNum (.finite q) => q ≠ 0
  | .floatNum _ => true
  | .str s => !s.isEmpty
  | .arr xs => !xs.isEmpty
  | .obj fs => !fs.isEmpty

/-- Truncation toward zero of a rational: the semantics of Python `int()` on
a finite float (whose exact value we carry as a rational). -/
def ratTrunc (q : ℚ) : Int :=
  if 0 ≤ q.num then ((q.num.toNat / q.den : Nat) : Int)
  else -(((-q.num).toNat / q.den : Nat) : Int)

/-- Python `float(int)` conversion: correctly rounded to binary64; raises
`OverflowError` when the rounded value is infinite (verified: `float()` on
an int raises exactly when rounding reaches 2^1024, e.g. at
`2^1024 - 2^970`). -/
def floatOfInt (n : Int) : Except PyErr ℚ :=
  match flRound (n : ℚ) with
  | .finite q => .ok q
  | _ => .error .overflowError

/-- Python `int(float)`: truncation toward zero for finite values,
`OverflowError` on the infinities, `ValueError` on `nan`. -/
def intOfFloat : PyFloat → Except PyErr Int
  | .finite q => .ok (ratTrunc q)
  | .nan => .error .valueError
  | _ => .error .overflowError

/-- Python `int / float` true division: the int operand is converted to a
double first (so a too-large int raises `OverflowError` even against a
zero divisor, as CPython's `float_div` converts both operands before its
zero check), a zero divisor raises `ZeroDivisionError`, and otherwise the
exact quotient is correctly rounded. -/
def pyDivIntFloat (n : Int) (f : PyFloat) : Except PyErr PyFloat :=
  match floatOfInt n with
  | .error e => .error e
  | .ok a =>
    match f with
    | .nan => .ok .nan
    | .inf => .ok (.finite 0)
    | .neginf => .ok (.finite 0)
    | .finite qb =>
      if qb = 0 then .error .zeroDivisionError
      else .ok (flRound (a / qb))

/-- Python `float * int` multiplication: the int operand is converted to a
double first (may raise `OverflowError`), then the exact product is
correctly rounded; `nan` propagates and an infinity times a nonzero
converted int stays infinite. -/
def pyMulFloatInt (f : PyFloat) (w : Int) : Except PyErr PyFloat :=
  match floatOfInt w with
  | .error e => .error e
  | .ok b =>
    match f with
    | .nan => .ok .nan
    | .inf => if b = 0 then .ok .nan else .ok (if b < 0 then .neginf else .inf)
    | .neginf =>
      if b = 0 then .ok .nan else .ok (if b < 0 then .inf else .neginf)
    | .finite a => .ok (flRound (a * b))

def pyWsChar (c : Char) : Bool :=
  c = ' ' ∨ c = '\t' ∨ c = '\n' ∨ c = '\r' ∨ c.toNat = 11 ∨ c.toNat = 12

def dropLeadingWs : List Char → List Char
  | [] => []
  | c :: t => if pyWsChar c then dropLeadingWs t else c :: t

def stripChars (cs : List Char) : List Char :=
  (dropLeadingWs ((dropLeadingWs cs.reverse).reverse))

/-- Model of Python `int(s)` for a string: strip whitespace, optional sign,
then a nonempty digit run (digit-group underscores are not modelled). -/
def pyStrToInt (cs : List Char) : Option Int :=
  let t := stripChars cs
  let body : Option (Bool × List Char) :=
    match t with
    | '-' :: d => some (true, d)
    | '+' :: d => some (false, d)
    | d => some (false, d)
  match body with
  | some (neg, d) =>
    if d ≠ [] ∧ d.all isDigit then
      some (if neg then -(digitsVal d : Int) else (digitsVal d : Int))
    else none
  | none => none

/-- Model of Python `float(s)` for a string: strip whitespace, optional
sign, then either an `inf`/`infinity`/`nan` keyword (case-insensitive) or
a decimal literal `[digits][.digits][(e|E)[sign]digits]` with at least one
digit, whose exact value is correctly rounded to binary64 — overflowing
text yields an infinity, never an error (digit-group underscores are not
modelled). -/
def pyStrToFloat (cs : List Char) : Option PyFloat :=
  let t := stripChars cs
  let sp : Bool × List Char :=
    match t with
    | '-' :: d => (true, d)
    | '+' :: d => (false, d)
    | d => (false, d)
  let low := sp.2.map Char.toLower
  if low = "inf".data || low = "infinity".data then
    some (if sp.1 then .neginf else .inf)
  else if low = "nan".data then some .nan
  else
    let ip := takeDigits sp.2
    let fr : List Char × List Char :=
      match ip.2 with
      | '.' :: t2 => takeDigits t2
      | r => ([], r)
    if ip.1.isEmpty && fr.1.isEmpty then none
    else
      let exPart : Option (Int × List Char) :=
        match fr.2 with
        | e :: t3 =>
          if e = 'e' ∨ e = 'E' then
            match t3 with
            | '-' :: t4 =>
              match takeDigits t4 with
              | ([], _) => none
              | (es, r3) => some (-(digitsVal es : Int), r3)
            | '+' :: t4 =>
              match takeDigits t4 with
              | ([], _) => none
              | (es, r3) => some ((digitsVal es : Int), r3)
            | _ =>
              match takeDigits t3 with
              | ([], _) => none
              | (es, r3) => some ((digitsVal es : Int), r3)
          else none
        | [] => some (0, [])
      match exPart with
      | some (ex, []) =>
        let mag : Int :=
          ((digitsVal ip.1 * 10 ^ fr.1.length + digitsVal fr.1 : Nat) : Int)
        let m0 : Int := if sp.1 then -mag else mag
        some (flRound ((m0 : ℚ) * pow10q (ex - (fr.1.length : Int))))
      | _ => none

/-- Python `int(v)` on a decoded JSON value: ints pass through (arbitrary
precision, never an error), finite floats truncate toward zero, infinite
floats raise `OverflowError` and `nan` raises `ValueError`, bools are 0/1,
numeric strings parse, everything else raises `TypeError`. -/
def pyInt : Json → Except PyErr Int
  | .intNum n => .ok n
  | .floatNum f => intOfFloat f
  | .bool b => .ok (if b then 1 else 0)
  | .str s =>
    match pyStrToInt s with
    | some n => .ok n
    | none => .error .valueError
  | _ => .error .typeError

/-- Python `float(v)` on a decoded JSON value: floats pass through, ints
convert with rounding (raising `OverflowError` when infinite), bools are
0.0/1.0, strings parse, everything else raises `TypeError`. -/
def pyFloat : Json → Except PyErr PyFloat
  | .intNum n =>
    match floatOfInt n with
    | .ok q => .ok (.finite q)
    | .error e => .error e
  | .floatNum f => .ok f
  | .bool b => .ok (.finite (if b then 1 else 0))
  | .str s =>
    match pyStrToFloat s with
    | some f => .ok f
    | none => .error .valueError
  | _ => .error .typeError

/-- `needle` occurs as a contiguous substring of `hay` (Python `in` on
strings). -/
def containsSub (needle : List Char) : List Char → Bool
  | [] => needle.isEmpty
  | c :: rest => List.isPrefixOf needle (c :: rest) || containsSub needle rest

/-- Is `o` the Python string `s` (the `payload.get("type") == "..."` test;
any non-string value compares unequal)? -/
def isTag (o : Option Json) (s : String) : Bool :=
  match o with
  | some (.str t) => t = s.data
  | _ => false

/-- Embedding of `map_button` (src/client.py lines 23-33). Its argument is
the raw `payload.get("button")` value (Python `None` = key absent or JSON
null, both mapped through `getN`): falsy values give `None`, a string is
lowercased and matched by substring, any other truthy value raises
`AttributeError` at `name.lower()`. Lowercasing is modelled on ASCII
letters (`Char.toLower`). -/
def map_button (name : Option Json) : Except PyErr (Option Button) :=
  match name with
  | none => .ok none
  | some v =>
    if pyTruthy v = false then .ok none
    else
      match v with
      | .str s =>
        let l := s.map Char.toLower
        if containsSub "left".data l then .ok (some .left)
        else if containsSub "right".data l then .ok (some .right)
        else if containsSub "middle".data l || containsSub "wheel".data l then
          .ok (some .middle)
        else .ok none
      | _ => .error .attributeError

/-- The unscaled fallback of the move branch (src/client.py lines 147-149):
inject the raw absolute `(x, y)` when both are present and not null,
otherwise do nothing. -/
def raw_move (fields : List (List Char × Json)) :
    Except PyErr (List InjectCall) :=
  match getN fields "x".data, getN fields "y".data with
  | some xv, some yv =>
    match pyInt xv with
    | .error e => .error e
    | .ok xi =>
      match pyInt yv with
      | .error e => .error e
      | .ok yi => .ok [.moveTo xi yi]
  | _, _ => .ok []

/-- Embedding of `handle_payload` (src/client.py lines 131-161). The
receiver's primary-screen geometry (`QGuiApplication.primaryScreen()`,
queried inside the move branch) is passed explicitly as `localDisplay`
(`none` models the no-screen case). The scaled-move expression
`int(int(x_rel) / float(sw) * geo.width())` is evaluated in IEEE-754
binary64 (`pyDivIntFloat`, `pyMulFloatInt`) with Python's conversion
errors, and `int()` truncates toward zero (`intOfFloat`). Returns the
injection calls made, or the exception the Python code would raise. -/
def handle_payload (payload : Json) (localDisplay : Option QRect) :
    Except PyErr (List InjectCall) :=
  match payload with
  | .obj fields =>
    let ptype := getN fields "type".data
    if isTag ptype "move" then
      match getN fields "x_rel".data, getN fields "y_rel".data,
          getN fields "screen_width".data, getN fields "screen_height".data with
      | some xr, some yr, some sw, some sh =>
        if pyTruthy sw && pyTruthy sh then
          match localDisplay with
          | some geo =>
            match pyInt xr with
            | .error e => .error e
            | .ok xi =>
              match pyFloat sw with
              | .error e => .error e
              | .ok fsw =>
                match pyDivIntFloat xi fsw with
                | .error e => .error e
                | .ok d1 =>
                  match pyMulFloatInt d1 geo.width with
                  | .error e => .error e
                  | .ok m1 =>
                    match intOfFloat m1 with
                    | .error e => .error e
                    | .ok nx0 =>
                      let nx := geo.x + nx0
                      match pyInt yr with
                      | .error e => .error e
                      | .ok yi =>
                        match pyFloat sh with
                        | .error e => .error e
                        | .ok fsh =>
                          match pyDivIntFloat yi fsh with
                          | .error e => .error e
                          | .ok d2 =>
                            match pyMulFloatInt d2 geo.height with
                            | .error e => .error e
                            | .ok m2 =>
                              match intOfFloat m2 with
                              | .error e => .error e
                              | .ok ny0 => .ok [.moveTo nx (geo.y + ny0)]
          | none => raw_move fields
        else raw_move fields
      | _, _, _, _ => raw_move fields
    else if isTag ptype "press" then
      match map_button (getN fields "button".data) with
      | .error e => .error e
      | .ok (some b) => .ok [.press b]
      | .ok none => .ok []
    else if isTag ptype "release" then
      match map_button (getN fields "button".data) with
      | .error e => .error e
      | .ok (some b) => .ok [.release b]
      | .ok none => .ok []
    else if isTag ptype "scroll" then
      let dxv :=
        match lookupLast fields "dx".data with
        | none => Json.intNum 0
        | some v => v
      let dyv :=
        match lookupLast fields "dy".data with
        | none => Json.intNum 0
        | some v => v
      match pyInt dxv with
      | .error e => .error e
      | .ok dx =>
        match pyInt dyv with
        | .error e => .error e
        | .ok dy => .ok [.scroll dx dy]
    else .ok []
  | _ => .error .attributeError

/-- A line is skipped by `if not line.strip(): continue` exactly when every
byte is ASCII whitespace. -/
def isBlankLine (line : List Nat) : Bool :=
  line.all (fun b => b = 32 ∨ b = 9 ∨ b = 10 ∨ b = 13 ∨ b = 11 ∨ b = 12)

/-- Per-line processing of the read loops (src/client.py lines 118-126 and
71-79): skip blank lines; decode UTF-8 (an uncaught `UnicodeDecodeError`
when the bytes are invalid — only `json.JSONDecodeError` is caught);
swallow JSON decode failures; otherwise dispatch through
`handle_payload`. -/
def processLine (line : List Nat) (localDisplay : Option QRect) :
    Except PyErr (List InjectCall) :=
  if isBlankLine line then .ok []
  else
    match utf8Decode line with
    | none => .error .unicodeDecodeError
    | some cs =>
      match json_loads cs with
      | none => .ok []
      | some payload => handle_payload payload localDisplay

/-! ### Well-typed payloads (the frames on which dispatch cannot raise) -/

/-- Values on which Python `int()` cannot raise: any int, a bool, or a
finite float (`int(inf)` raises `OverflowError`, `int(nan)` raises
`ValueError`). -/
def intSafe : Json → Bool
  | .intNum _ => true
  | .bool _ => true
  | .floatNum (.finite _) => true
  | _ => false

/-- Values safe in the scaled-move arithmetic: bools and integers of
magnitude at most 2^53. The bound keeps every intermediate double finite
(the quotient by a nonzero integer stays at most 2^53 in magnitude, so
`int()` of the product cannot see an infinity) and keeps `float()`
conversions exact. Larger ints or floats can raise `OverflowError` in the
pipeline — e.g. a denormal `screen_width` drives the quotient to infinity
— so they are not well-typed here. -/
def smallNum : Json → Bool
  | .intNum n => decide (n.natAbs ≤ 2 ^ 53)
  | .bool _ => true
  | _ => false

def optField (p : Json → Bool) (fields : List (List Char × Json))
    (k : List Char) : Bool :=
  match getN fields k with
  | none => true
  | some v => p v

def buttonFieldOk : Option Json → Bool
  | none => true
  | some (.str _) => true
  | some v => !pyTruthy v

def scrollFieldOk : Option Json → Bool
  | none => true
  | some v => intSafe v

/-- A JSON object whose fields, for its declared type, have shapes on which
`handle_payload` cannot raise: bounded integers (or bools) in the
scaled-move fields, any int or finite float in `x`/`y`/`dx`/`dy`, a string
(or falsy, or absent) button. -/
def wellTyped : Json → Bool
  | .obj fields =>
    let ptype := getN fields "type".data
    if isTag ptype "move" then
      optField smallNum fields "x_rel".data &&
      optField smallNum fields "y_rel".data &&
      optField smallNum fields "screen_width".data &&
      optField smallNum fields "screen_height".data &&
      optField intSafe fields "x".data && optField intSafe fields "y".data
    else if isTag ptype "press" || isTag ptype "release" then
      buttonFieldOk (getN fields "button".data)
    else if isTag ptype "scroll" then
      scrollFieldOk (lookupLast fields "dx".data) &&
      scrollFieldOk (lookupLast fields "dy".data)
    else true
  | _ => false

/-- A sane local display for the remap: pixel dimensions at most 2^53 in
magnitude (every real Qt geometry is far below this), so that converting
them to doubles is exact and the scaled product stays finite. -/
def displayOk : Option QRect → Bool
  | none => true
  | some geo =>
    decide (geo.width.natAbs ≤ 2 ^ 53 ∧ geo.height.natAbs ≤ 2 ^ 53)

/-- The per-axis remap of src/client.py lines 143-144: the binary64
evaluation of `int(int(rel) / float(origin) * target)` — convert the
origin dimension to a double, divide, multiply by the target dimension,
truncate toward zero. -/
def remapAxis (rel origin target : Int) : Except PyErr Int :=
  match floatOfInt origin with
  | .error e => .error e
  | .ok fo =>
    match pyDivIntFloat rel (.finite fo) with
    | .error e => .error e
    | .ok d1 =>
      match pyMulFloatInt d1 target with
      | .error e => .error e
      | .ok m1 => intOfFloat m1

/-! ### Receive-buffer frame reassembly (src/client.py lines 60-79, 105-126)

`buffer += chunk` followed by `while b"\n" in buffer: line, buffer =
buffer.split(b"\n", 1)`. -/

/-- `buffer.split(b"\n", 1)` when a newline is present: the bytes before the
first `\n` and the bytes after it. -/
def splitFirstNl : List Nat → Option (List Nat × List Nat)
  | [] => none
  | b :: rest =>
    if b = 10 then some ([], rest)
    else
      match splitFirstNl rest with
      | some (l, r) => some (b :: l, r)
      | none => none

/-- One pass over the buffer bytes, carrying the current (reversed) partial
line: emits a completed line at each newline byte and returns the trailing
partial line as the residue. This is the net effect of the
`while b"\n" in buffer` split loop; the theorems `extractLines_of_none` and
`extractLines_of_some` below establish that it satisfies exactly the
loop's `buffer.split(b"\n", 1)` recurrence. -/
def scanBytes (cur : List Nat) : List Nat → List (List Nat) × List Nat
  | [] => ([], cur.reverse)
  | b :: rest =>
    if b = 10 then
      let p := scanBytes [] rest
      (cur.reverse :: p.1, p.2)
    else scanBytes (b :: cur) rest

/-- The `while b"\n" in buffer` loop: all complete lines in order, and the
residue after the last newline (kept buffered for the next read). -/
def extractLines (buf : List Nat) : List (List Nat) × List Nat :=
  scanBytes [] buf

/-- Feeding the chunks of a stream one `recv` at a time through the
buffer-and-split loop: the lines extracted across all feeds, in order, and
the final residual buffer. -/
def feedChunks (chunks : List (List Nat)) : List (List Nat) × List Nat :=
  chunks.foldl
    (fun acc chunk =>
      let p := extractLines (acc.2 ++ chunk)
      (acc.1 ++ p.1, p.2))
    ([], [])

/-- The per-line decode pipeline projected to the successfully decoded
payloads (blank lines skipped, undecodable or malformed lines dropped). -/
def decodedPayloads (lines : List (List Nat)) : List Json :=
  lines.filterMap
    (fun l =>
      if isBlankLine l then none
      else
        match utf8Decode l with
        | none => none
        | some cs => json_loads cs)

/-! ### Concrete frames and fixtures used by the scenario statements -/

/-- A move frame carrying only the relative-mapping fields. -/
def scaledMovePayload (xr yr sw sh : Int) : Json :=
  .obj [("type".data, .str "move".data), ("x_rel".data, .intNum xr),
    ("y_rel".data, .intNum yr), ("screen_width".data, .intNum sw),
    ("screen_height".data, .intNum sh)]

/-- A move frame carrying relative-mapping fields and absolute `x`, `y`. -/
def fullMovePayload (xr yr sw sh x y : Int) : Json :=
  .obj [("type".data, .str "move".data), ("x_rel".data, .intNum xr),
    ("y_rel".data, .intNum yr), ("screen_width".data, .intNum sw),
    ("screen_height".data, .intNum sh), ("x".data, .intNum x),
    ("y".data, .intNum y)]

/-- A move frame carrying only absolute `x`, `y`. -/
def rawMovePayload (x y : Int) : Json :=
  .obj [("type".data, .str "move".data), ("x".data, .intNum x),
    ("y".data, .intNum y)]

/-- Modelled from the spec: the remap formula of §4.2 as the claim states it,
with `round` as ordinary rounding of the exact quotient. The code under
test uses `int()` truncation instead; `specRound` exists only to state the
discrepancy. -/
def specRound (q : ℚ) : Int := ⌊q + 1 / 2⌋

def demoScreen : Screen := ⟨"DP-1", ⟨0, 0, 1920, 1080⟩⟩

def watcher0 : CornerWatcher := CornerWatcher.init 60 "bottom-left" none

/-- A watcher whose latch is currently set (`_in_corner = True`). -/
def latchedWatcher : CornerWatcher :=
  { threshold_px := 60, position := "bottom-left", target_screen_name := none
    enabled := true, in_corner := true }

/-- First read of the §8 partial-read scenario: a complete move frame plus
the head of a press frame. -/
def chunkA : List Nat :=
  strBytes "\x7b\"type\":\"move\",\"x\":10,\"y\":20\x7d\n\x7b\"type\":\"pre"

/-- Second read of the §8 partial-read scenario: the tail of the press
frame. -/
def chunkB : List Nat := strBytes "ss\",\"button\":\"left\"\x7d\n"

def movePayload1020 : Json :=
  .obj [("type".data, .str "move".data), ("x".data, .intNum 10),
    ("y".data, .intNum 20)]

def pressLeftPayload : Json :=
  .obj [("type".data, .str "press".data), ("button".data, .str "left".data)]

/-! ### Properties of the binary64 rounding model -/

theorem pow2_eq_zpow (k : Int) : pow2 k = (2 : ℚ) ^ k := by
  unfold pow2
  split
  next h =>
    rw [show ((2 ^ k.toNat : Nat) : ℚ) = ((2 : ℚ) ^ k.toNat) by push_cast; ring]
    rw [← zpow_natCast, Int.toNat_of_nonneg h]
  next h =>
    have h' : 0 ≤ -k := by omega
    rw [show ((2 ^ (-k).toNat : Nat) : ℚ) = ((2 : ℚ) ^ (-k).toNat) by
      push_cast; ring]
    rw [← zpow_natCast, Int.toNat_of_nonneg h', ← zpow_neg, neg_neg]

theorem pow2_pos (k : Int) : 0 < pow2 k := by
  rw [pow2_eq_zpow]; positivity

theorem pow2_ne_zero (k : Int) : pow2 k ≠ 0 := ne_of_gt (pow2_pos k)

theorem pow2_add (j k : Int) : pow2 (j + k) = pow2 j * pow2 k := by
  rw [pow2_eq_zpow, pow2_eq_zpow, pow2_eq_zpow, zpow_add₀ (by norm_num : (2:ℚ) ≠ 0)]

theorem pow2_le_pow2 {j k : Int} (h : j ≤ k) : pow2 j ≤ pow2 k := by
  rw [pow2_eq_zpow, pow2_eq_zpow]
  exact zpow_le_zpow_right₀ (by norm_num) h

theorem pow2_lt_pow2 {j k : Int} (h : j < k) : pow2 j < pow2 k := by
  rw [pow2_eq_zpow, pow2_eq_zpow]
  exact zpow_lt_zpow_right₀ (by norm_num) h

theorem pow2_le_pow2_iff {j k : Int} : pow2 j ≤ pow2 k ↔ j ≤ k := by
  rw [pow2_eq_zpow, pow2_eq_zpow]
  exact zpow_le_zpow_iff_right₀ (by norm_num)

theorem pow2_natCast (n : Nat) : pow2 (n : Int) = ((2 ^ n : Nat) : ℚ) := by
  unfold pow2
  rw [if_pos (by omega : (0:Int) ≤ (n : Int))]
  simp

theorem pow2_zero : pow2 0 = 1 := by norm_num [pow2]

theorem natLog2F_spec :
    ∀ (fuel n : Nat), 1 ≤ n → n ≤ fuel →
      2 ^ natLog2F fuel n ≤ n ∧ n < 2 ^ (natLog2F fuel n + 1) := by
  intro fuel
  induction fuel with
  | zero => intro n h1 h2; omega
  | succ fuel ih =>
    intro n h1 h2
    rw [natLog2F]
    by_cases hn : n ≤ 1
    · rw [if_pos hn]
      constructor
      · simpa using h1
      · simpa using by omega
    · rw [if_neg hn]
      have h1' : 1 ≤ n / 2 := by omega
      have h2' : n / 2 ≤ fuel := by omega
      obtain ⟨ha, hb⟩ := ih (n / 2) h1' h2'
      have e1 : 2 ^ (natLog2F fuel (n / 2) + 1) = 2 * 2 ^ natLog2F fuel (n / 2) := by
        rw [pow_succ]; ring
      have e2 : 2 ^ (natLog2F fuel (n / 2) + 1 + 1) =
          2 * 2 ^ (natLog2F fuel (n / 2) + 1) := by
        rw [pow_succ _ (natLog2F fuel (n / 2) + 1)]; ring
      constructor
      · omega
      · omega

theorem natLog2_spec {n : Nat} (h : 1 ≤ n) :
    2 ^ natLog2 n ≤ n ∧ n < 2 ^ (natLog2 n + 1) :=
  natLog2F_spec n n h le_rfl

theorem floorLog2Rat_spec {q : ℚ} (hq : 0 < q) :
    pow2 (floorLog2Rat q) ≤ q ∧ q < pow2 (floorLog2Rat q + 1) := by
  have hnum : 0 < q.num := Rat.num_pos.mpr hq
  have hden : 0 < (q.den : Int) := by exact_mod_cast q.pos
  set a := q.num.toNat with hadef
  set b := q.den with hbdef
  have ha1 : 1 ≤ a := by omega
  have hb1 : 1 ≤ b := q.pos
  obtain ⟨hA1, hA2⟩ := natLog2_spec ha1
  obtain ⟨hB1, hB2⟩ := natLog2_spec hb1
  set P := natLog2 a with hPdef
  set R := natLog2 b with hRdef
  have hna : ((a : Nat) : ℤ) = q.num := by
    rw [hadef]; exact Int.toNat_of_nonneg (le_of_lt hnum)
  have hqab : q = (a : ℚ) / (b : ℚ) := by
    have h1 : ((a : Nat) : ℚ) = ((q.num : ℤ) : ℚ) := by exact_mod_cast hna
    rw [h1, hbdef]
    exact (Rat.num_div_den q).symm
  have hbQ : (0 : ℚ) < (b : ℚ) := by exact_mod_cast hb1
  have haQ : (0 : ℚ) < (a : ℚ) := by exact_mod_cast ha1
  -- the four power bounds, in ℚ
  have hA1Q : pow2 (P : Int) ≤ (a : ℚ) := by
    rw [pow2_natCast]; exact_mod_cast hA1
  have hA2Q : (a : ℚ) < pow2 ((P : Int) + 1) := by
    rw [show ((P : Int) + 1) = ((P + 1 : Nat) : Int) by push_cast; ring, pow2_natCast]
    exact_mod_cast hA2
  have hB1Q : pow2 (R : Int) ≤ (b : ℚ) := by
    rw [pow2_natCast]; exact_mod_cast hB1
  have hB2Q : (b : ℚ) < pow2 ((R : Int) + 1) := by
    rw [show ((R : Int) + 1) = ((R + 1 : Nat) : Int) by push_cast; ring, pow2_natCast]
    exact_mod_cast hB2
  have key1 : pow2 ((P : Int) - (R : Int) - 1) < q := by
    rw [hqab]
    rw [show ((P : Int) - (R : Int) - 1) = (P : Int) + (-((R : Int) + 1)) by ring,
      pow2_add, pow2_eq_zpow (-((R : Int) + 1)), zpow_neg, ← pow2_eq_zpow]
    rw [lt_div_iff₀ hbQ]
    have h2 : pow2 ((P : Int)) * (pow2 ((R : Int) + 1))⁻¹ * (b : ℚ) <
        pow2 ((P : Int)) * (pow2 ((R : Int) + 1))⁻¹ * pow2 ((R : Int) + 1) := by
      exact mul_lt_mul_of_pos_left hB2Q
        (mul_pos (pow2_pos _) (inv_pos.mpr (pow2_pos _)))
    calc pow2 ((P : Int)) * (pow2 ((R : Int) + 1))⁻¹ * (b : ℚ)
        < pow2 ((P : Int)) * (pow2 ((R : Int) + 1))⁻¹ * pow2 ((R : Int) + 1) := h2
      _ = pow2 ((P : Int)) := by
          rw [mul_assoc, inv_mul_cancel₀ (pow2_ne_zero _), mul_one]
      _ ≤ (a : ℚ) := hA1Q
  have key2 : q < pow2 ((P : Int) - (R : Int) + 1) := by
    rw [hqab, div_lt_iff₀ hbQ]
    rw [show ((P : Int) - (R : Int) + 1) = ((P : Int) + 1) + (-(R : Int)) by ring,
      pow2_add, pow2_eq_zpow (-(R : Int)), zpow_neg, ← pow2_eq_zpow]
    calc (a : ℚ) < pow2 ((P : Int) + 1) := hA2Q
      _ = pow2 ((P : Int) + 1) * (pow2 (R : Int))⁻¹ * pow2 (R : Int) := by
          rw [mul_assoc, inv_mul_cancel₀ (pow2_ne_zero _), mul_one]
      _ ≤ pow2 ((P : Int) + 1) * (pow2 (R : Int))⁻¹ * (b : ℚ) := by
          exact mul_le_mul_of_nonneg_left hB1Q
            (le_of_lt (mul_pos (pow2_pos _) (inv_pos.mpr (pow2_pos _))))
  unfold floorLog2Rat
  rw [← hadef, ← hbdef, ← hPdef, ← hRdef]
  split_ifs with h1 h2
  · exact absurd h1 (not_le.mpr key2)
  · exact ⟨h2, key2⟩
  · refine ⟨le_of_lt key1, ?_⟩
    rw [show ((P : Int) - (R : Int) - 1 + 1) = ((P : Int) - (R : Int)) by ring]
    exact not_le.mp h2

theorem rhe_le (t : ℚ) : (roundHalfEven t : ℚ) ≤ t + 1 / 2 := by
  unfold roundHalfEven
  have hf := Int.floor_le t
  split_ifs with h1 h2 h3 <;> push_cast <;> linarith

theorem rhe_intCast (m : Int) : roundHalfEven (m : ℚ) = m := by
  unfold roundHalfEven
  rw [Int.floor_intCast]
  norm_num

theorem rhe_nonneg {t : ℚ} (h : 0 ≤ t) : 0 ≤ roundHalfEven t := by
  unfold roundHalfEven
  have := Int.floor_nonneg.mpr h
  split_ifs <;> omega

theorem flVal_nonneg {a : ℚ} (h : 0 ≤ a) : 0 ≤ flVal a := by
  unfold flVal
  have h1 : (0 : ℚ) ≤ (roundHalfEven (a / pow2 (flE a)) : ℚ) := by
    exact_mod_cast rhe_nonneg (div_nonneg h (le_of_lt (pow2_pos _)))
  exact mul_nonneg h1 (le_of_lt (pow2_pos _))

theorem flVal_le {a : ℚ} (h : 0 ≤ a) : flVal a ≤ 2 * a := by
  unfold flVal
  set E := flE a with hE
  set n := roundHalfEven (a / pow2 E) with hn
  have hEpos := pow2_pos E
  have hnn : 0 ≤ n := rhe_nonneg (div_nonneg h (le_of_lt (pow2_pos _)))
  by_cases hz : n = 0
  · rw [hz]; simpa using by linarith
  · have hn1 : 1 ≤ n := by omega
    have htle : (n : ℚ) ≤ a / pow2 E + 1 / 2 := rhe_le _
    have hhalf : 1 / 2 ≤ a / pow2 E := by
      have h1 : (1 : ℚ) ≤ (n : ℚ) := by exact_mod_cast hn1
      linarith
    have h2 : pow2 E ≤ 2 * a := by
      have := mul_le_mul_of_nonneg_right hhalf (le_of_lt hEpos)
      rw [div_mul_cancel₀ _ (pow2_ne_zero E)] at this
      linarith
    have h3 : (n : ℚ) * pow2 E ≤ (a / pow2 E + 1 / 2) * pow2 E :=
      mul_le_mul_of_nonneg_right htle (le_of_lt hEpos)
    rw [add_mul, div_mul_cancel₀ _ (pow2_ne_zero E)] at h3
    linarith

/-- Rounding never overflows on magnitudes up to 2^1022, and the result is
within a factor of two of the input (a coarse but sufficient bound). -/
theorem flRound_small {x : ℚ} (hx : |x| ≤ pow2 1022) :
    ∃ v : ℚ, flRound x = .finite v ∧ |v| ≤ 2 * |x| := by
  by_cases h0 : x = 0
  · exact ⟨0, by simp [flRound, h0], by simp [h0]⟩
  · have habs : 0 ≤ |x| := abs_nonneg x
    have hlt : flVal |x| < pow2 1024 := by
      calc flVal |x| ≤ 2 * |x| := flVal_le habs
        _ ≤ 2 * pow2 1022 := by linarith
        _ = pow2 1023 := by
            rw [show (1023 : Int) = 1 + 1022 by norm_num, pow2_add]
            norm_num [pow2]

        _ < pow2 1024 := pow2_lt_pow2 (by norm_num)
    unfold flRound
    rw [if_neg h0, if_neg (not_le.mpr hlt)]
    by_cases hv0 : flVal |x| = 0
    · rw [if_pos hv0]
      refine ⟨0, rfl, ?_⟩
      simp only [abs_zero]
      positivity
    · rw [if_neg hv0]
      refine ⟨if x < 0 then -flVal |x| else flVal |x|, rfl, ?_⟩
      have hb := flVal_le habs
      have hnn := flVal_nonneg habs
      split_ifs
      · rw [abs_neg, abs_of_nonneg hnn]; linarith
      · rw [abs_of_nonneg hnn]; linarith

/-! ### Exactness of the conversion on small integers -/

theorem flVal_eq_self (a : ℚ) (M : Int) (hM : a = (M : ℚ) * pow2 (flE a)) :
    flVal a = a := by
  have h : a / pow2 (flE a) = (M : ℚ) := by
    rw [div_eq_iff (pow2_ne_zero _)]; exact hM
  unfold flVal
  rw [h, rhe_intCast]
  exact hM.symm

theorem flVal_int_exact {m : Nat} (h1 : 1 ≤ m) (h2 : m ≤ 2 ^ 53) :
    flVal ((m : ℚ)) = (m : ℚ) := by
  have haQ : (0 : ℚ) < (m : ℚ) := by exact_mod_cast h1
  obtain ⟨hk1, hk2⟩ := floorLog2Rat_spec haQ
  set k := floorLog2Rat ((m : ℚ)) with hkdef
  have hm2 : ((m : ℚ)) ≤ pow2 53 := by
    have h53 : pow2 53 = ((2 ^ 53 : Nat) : ℚ) := by
      rw [show (53 : Int) = ((53 : Nat) : Int) by norm_num, pow2_natCast]
    rw [h53]; exact_mod_cast h2
  have hk53 : k ≤ 53 := by
    by_contra hgt
    push_neg at hgt
    have hle : pow2 54 ≤ pow2 k := pow2_le_pow2 (by omega)
    have h4 : pow2 53 < pow2 54 := pow2_lt_pow2 (by norm_num)
    linarith
  have hk0 : 0 ≤ k := by
    by_contra hneg
    push_neg at hneg
    have hle : pow2 (k + 1) ≤ pow2 0 := pow2_le_pow2 (by omega)
    rw [pow2_zero] at hle
    have h1Q : (1 : ℚ) ≤ (m : ℚ) := by exact_mod_cast h1
    linarith
  have hE : flE ((m : ℚ)) = k - 52 := by
    unfold flE
    rw [← hkdef]
    exact max_eq_left (by omega)
  by_cases hc : k ≤ 52
  · apply flVal_eq_self _ ((m * 2 ^ (52 - k).toNat : Nat) : Int)
    rw [hE]
    have hpow : ((2 : ℚ)) ^ ((52 - k).toNat) * pow2 (k - 52) = 1 := by
      rw [show ((2 : ℚ)) ^ ((52 - k).toNat) = pow2 (((52 - k).toNat : Nat) : Int) by
        rw [pow2_eq_zpow, zpow_natCast]]
      rw [← pow2_add, show (((52 - k).toNat : Nat) : Int) + (k - 52) = 0 by omega,
        pow2_zero]
    push_cast
    rw [mul_assoc, hpow, mul_one]
  · have hk53' : k = 53 := by omega
    have ha53 : ((m : ℚ)) = pow2 53 := le_antisymm hm2 (hk53' ▸ hk1)
    apply flVal_eq_self _ ((2 ^ 52 : Nat) : Int)
    rw [hE, hk53', ha53]
    have h52 : (((2 ^ 52 : Nat) : Int) : ℚ) = pow2 52 := by
      rw [show (52 : Int) = ((52 : Nat) : Int) by norm_num, pow2_natCast]
      push_cast
      ring
    rw [h52, ← pow2_add]
    norm_num

theorem flRound_int {n : Int} (hn : n.natAbs ≤ 2 ^ 53) :
    flRound ((n : ℚ)) = .finite ((n : ℚ)) := by
  by_cases h0 : n = 0
  · subst h0
    simp [flRound]
  · have hne : ((n : ℚ)) ≠ 0 := by exact_mod_cast h0
    have habs : |((n : ℚ))| = ((n.natAbs : Nat) : ℚ) := by
      rw [Int.cast_natAbs, Int.cast_abs]
    have h1 : 1 ≤ n.natAbs := by omega
    have hval : flVal |((n : ℚ))| = |((n : ℚ))| := by
      rw [habs]
      exact flVal_int_exact h1 hn
    have habs_pos : (0 : ℚ) < |((n : ℚ))| := abs_pos.mpr hne
    have hsmall : |((n : ℚ))| < pow2 1024 := by
      calc |((n : ℚ))| = ((n.natAbs : Nat) : ℚ) := habs
        _ ≤ ((2 ^ 53 : Nat) : ℚ) := by exact_mod_cast hn
        _ = pow2 53 := by
            rw [show (53 : Int) = ((53 : Nat) : Int) by norm_num, pow2_natCast]
        _ < pow2 1024 := pow2_lt_pow2 (by norm_num)
    unfold flRound
    rw [if_neg hne, hval, if_neg (not_le.mpr hsmall), if_neg (ne_of_gt habs_pos)]
    rcases lt_or_ge ((n : ℚ)) 0 with hlt | hge
    · rw [if_pos hlt, abs_of_neg hlt, neg_neg]
    · rw [if_neg (not_lt.mpr hge), abs_of_nonneg hge]

theorem floatOfInt_small {n : Int} (hn : n.natAbs ≤ 2 ^ 53) :
    floatOfInt n = .ok ((n : ℚ)) := by
  unfold floatOfInt
  rw [flRound_int hn]

/-! ### The scaled-move arithmetic chain stays finite on bounded inputs -/

theorem abs_cast_le_pow2_53 {n : Int} (hn : n.natAbs ≤ 2 ^ 53) :
    |((n : ℚ))| ≤ pow2 53 := by
  rw [← Int.cast_abs, Int.abs_eq_natAbs,
    show (53 : Int) = ((53 : Nat) : Int) by norm_num, pow2_natCast]
  exact_mod_cast hn

theorem pyDivIntFloat_small {a b : Int} (ha : a.natAbs ≤ 2 ^ 53)
    (hb : b ≠ 0) :
    ∃ q1 : ℚ, pyDivIntFloat a (.finite ((b : ℚ))) = .ok (.finite q1) ∧
      |q1| ≤ pow2 54 := by
  have hbne : ((b : ℚ)) ≠ 0 := by exact_mod_cast hb
  have hquot : |((a : ℚ)) / ((b : ℚ))| ≤ pow2 53 := by
    rw [abs_div]
    have hb1 : (1 : ℚ) ≤ |((b : ℚ))| := by
      rw [← Int.cast_abs]
      exact_mod_cast Int.one_le_abs hb
    calc |((a : ℚ))| / |((b : ℚ))| ≤ |((a : ℚ))| :=
        div_le_self (abs_nonneg _) hb1
      _ ≤ pow2 53 := abs_cast_le_pow2_53 ha
  have h1022 : |((a : ℚ)) / ((b : ℚ))| ≤ pow2 1022 :=
    le_trans hquot (pow2_le_pow2 (by norm_num))
  obtain ⟨q1, hq1, hq1b⟩ := flRound_small h1022
  refine ⟨q1, ?_, ?_⟩
  · unfold pyDivIntFloat
    simp only [floatOfInt_small ha]
    rw [if_neg hbne, hq1]
  · calc |q1| ≤ 2 * |((a : ℚ)) / ((b : ℚ))| := hq1b
      _ ≤ 2 * pow2 53 := by linarith
      _ = pow2 54 := by
          rw [show (54 : Int) = 1 + 53 by norm_num, pow2_add]
          norm_num [pow2]

theorem pyMulFloatInt_small {q1 : ℚ} {w : Int} (hq1 : |q1| ≤ pow2 54)
    (hw : w.natAbs ≤ 2 ^ 53) :
    ∃ q2 : ℚ, pyMulFloatInt (.finite q1) w = .ok (.finite q2) := by
  have hprod : |q1 * ((w : ℚ))| ≤ pow2 1022 := by
    rw [abs_mul]
    calc |q1| * |((w : ℚ))| ≤ pow2 54 * pow2 53 :=
        mul_le_mul hq1 (abs_cast_le_pow2_53 hw) (abs_nonneg _)
          (le_of_lt (pow2_pos _))
      _ = pow2 107 := by rw [← pow2_add]; norm_num
      _ ≤ pow2 1022 := pow2_le_pow2 (by norm_num)
  obtain ⟨q2, hq2, -⟩ := flRound_small hprod
  refine ⟨q2, ?_⟩
  unfold pyMulFloatInt
  simp only [floatOfInt_small hw]
  rw [hq2]

/-! ### Totality of dispatch on well-typed frames -/

theorem pyInt_smallNum {v : Json} (h : smallNum v = true) :
    ∃ n : Int, pyInt v = .ok n ∧ n.natAbs ≤ 2 ^ 53 := by
  cases v with
  | intNum n =>
    refine ⟨n, rfl, ?_⟩
    simpa [smallNum] using h
  | bool b => exact ⟨if b then 1 else 0, rfl, by cases b <;> norm_num⟩
  | null => simp [smallNum] at h
  | floatNum f => simp [smallNum] at h
  | str s => simp [smallNum] at h
  | arr xs => simp [smallNum] at h
  | obj fs => simp [smallNum] at h

theorem pyInt_intSafe {v : Json} (h : intSafe v = true) :
    ∃ n : Int, pyInt v = .ok n := by
  cases v with
  | intNum n => exact ⟨n, rfl⟩
  | bool b => exact ⟨if b then 1 else 0, rfl⟩
  | floatNum f =>
    cases f with
    | finite q => exact ⟨ratTrunc q, rfl⟩
    | inf => simp [intSafe] at h
    | neginf => simp [intSafe] at h
    | nan => simp [intSafe] at h
  | null => simp [intSafe] at h
  | str s => simp [intSafe] at h
  | arr xs => simp [intSafe] at h
  | obj fs => simp [intSafe] at h

theorem pyFloat_smallNum {v : Json} (h : smallNum v = true)
    (ht : pyTruthy v = true) :
    ∃ b : Int, pyFloat v = .ok (.finite ((b : ℚ))) ∧ b ≠ 0 ∧
      b.natAbs ≤ 2 ^ 53 := by
  cases v with
  | intNum n =>
    have hb : n.natAbs ≤ 2 ^ 53 := by simpa [smallNum] using h
    have hne : n ≠ 0 := by simpa [pyTruthy] using ht
    refine ⟨n, ?_, hne, hb⟩
    unfold pyFloat
    dsimp only
    rw [floatOfInt_small hb]
  | bool b =>
    cases b with
    | true =>
      refine ⟨1, ?_, one_ne_zero, by norm_num⟩
      simp [pyFloat]
    | false => simp [pyTruthy] at ht
  | null => simp [smallNum] at h
  | floatNum f => simp [smallNum] at h
  | str s => simp [smallNum] at h
  | arr xs => simp [smallNum] at h
  | obj fs => simp [smallNum] at h

theorem displayOk_bounds {geo : QRect} (h : displayOk (some geo) = true) :
    geo.width.natAbs ≤ 2 ^ 53 ∧ geo.height.natAbs ≤ 2 ^ 53 := by
  simpa [displayOk] using h

theorem optField_some {p : Json → Bool} {fields : List (List Char × Json)}
    {k : List Char} {v : Json} (h : optField p fields k = true)
    (hv : getN fields k = some v) : p v = true := by
  unfold optField at h
  rw [hv] at h
  exact h

theorem map_button_str_total (s : List Char) :
    ∃ r, map_button (some (.str s)) = .ok r := by
  unfold map_button
  simp only []
  by_cases ht : pyTruthy (.str s) = false
  · rw [if_pos ht]
    exact ⟨none, rfl⟩
  · rw [if_neg ht]
    by_cases h1 : containsSub ("left".data) (List.map Char.toLower s) = true
    · exact ⟨some .left, by rw [if_pos h1]⟩
    · rw [if_neg h1]
      by_cases h2 : containsSub ("right".data) (List.map Char.toLower s) = true
      · exact ⟨some .right, by rw [if_pos h2]⟩
      · rw [if_neg h2]
        by_cases h3 : (containsSub ("middle".data) (List.map Char.toLower s) ||
            containsSub ("wheel".data) (List.map Char.toLower s)) = true
        · exact ⟨some .middle, by rw [if_pos h3]⟩
        · rw [if_neg h3]
          exact ⟨none, rfl⟩

theorem map_button_ok {o : Option Json} (h : buttonFieldOk o = true) :
    ∃ r, map_button o = .ok r := by
  match o with
  | none => exact ⟨none, rfl⟩
  | some (.str s) => exact map_button_str_total s
  | some .null => exact ⟨none, rfl⟩
  | some (.bool b) =>
    have hb : b = false := by simpa [buttonFieldOk, pyTruthy] using h
    subst hb
    exact ⟨none, rfl⟩
  | some (.intNum n) =>
    have hn : n = 0 := by simpa [buttonFieldOk, pyTruthy] using h
    subst hn
    exact ⟨none, by with_unfolding_all rfl⟩
  | some (.floatNum (.finite q)) =>
    have hq : q = 0 := by simpa [buttonFieldOk, pyTruthy] using h
    subst hq
    exact ⟨none, by with_unfolding_all rfl⟩
  | some (.floatNum .inf) => simp [buttonFieldOk, pyTruthy] at h
  | some (.floatNum .neginf) => simp [buttonFieldOk, pyTruthy] at h
  | some (.floatNum .nan) => simp [buttonFieldOk, pyTruthy] at h
  | some (.arr xs) =>
    have hx : xs = [] := by simpa [buttonFieldOk, pyTruthy] using h
    subst hx
    exact ⟨none, rfl⟩
  | some (.obj fs) =>
    have hf : fs = [] := by simpa [buttonFieldOk, pyTruthy] using h
    subst hf
    exact ⟨none, rfl⟩

theorem raw_move_ok {fields : List (List Char × Json)}
    (hx : optField intSafe fields ("x".data) = true)
    (hy : optField intSafe fields ("y".data) = true) :
    ∃ calls, raw_move fields = .ok calls := by
  unfold raw_move
  cases hgx : getN fields ("x".data) with
  | none => exact ⟨[], rfl⟩
  | some xv =>
    cases hgy : getN fields ("y".data) with
    | none => exact ⟨[], rfl⟩
    | some yv =>
      obtain ⟨xi, hxi⟩ := pyInt_intSafe (optField_some hx hgx)
      obtain ⟨yi, hyi⟩ := pyInt_intSafe (optField_some hy hgy)
      refine ⟨[.moveTo xi yi], ?_⟩
      simp only [hxi, hyi]

theorem handle_payload_total (p : Json) (ld : Option QRect)
    (hw : wellTyped p = true) (hd : displayOk ld = true) :
    ∃ calls, handle_payload p ld = .ok calls := by
  cases p with
  | null => simp [wellTyped] at hw
  | bool b => simp [wellTyped] at hw
  | intNum n => simp [wellTyped] at hw
  | floatNum f => simp [wellTyped] at hw
  | str s => simp [wellTyped] at hw
  | arr xs => simp [wellTyped] at hw
  | obj fields =>
    simp only [handle_payload]
    simp only [wellTyped] at hw
    by_cases hmove : isTag (getN fields ("type".data)) "move" = true
    · rw [if_pos hmove]
      rw [if_pos hmove] at hw
      simp only [Bool.and_eq_true] at hw
      obtain ⟨⟨⟨⟨⟨hxr, hyr⟩, hswf⟩, hshf⟩, hxf⟩, hyf⟩ := hw
      cases hgx : getN fields ("x_rel".data) with
      | none => exact raw_move_ok hxf hyf
      | some xrv =>
        cases hgy : getN fields ("y_rel".data) with
        | none => exact raw_move_ok hxf hyf
        | some yrv =>
          cases hgw : getN fields ("screen_width".data) with
          | none => exact raw_move_ok hxf hyf
          | some swv =>
            cases hgh : getN fields ("screen_height".data) with
            | none => exact raw_move_ok hxf hyf
            | some shv =>
              simp only []
              by_cases hgate : (pyTruthy swv && pyTruthy shv) = true
              · rw [if_pos hgate]
                have hgate' := hgate
                simp only [Bool.and_eq_true] at hgate'
                obtain ⟨hts, hth⟩ := hgate'
                cases ld with
                | none => exact raw_move_ok hxf hyf
                | some geo =>
                  obtain ⟨hWb, hHb⟩ := displayOk_bounds hd
                  obtain ⟨xi, hxi, hxib⟩ :=
                    pyInt_smallNum (optField_some hxr hgx)
                  obtain ⟨yi, hyi, hyib⟩ :=
                    pyInt_smallNum (optField_some hyr hgy)
                  obtain ⟨swb, hswq, hswne, hswB⟩ :=
                    pyFloat_smallNum (optField_some hswf hgw) hts
                  obtain ⟨shb, hshq, hshne, hshB⟩ :=
                    pyFloat_smallNum (optField_some hshf hgh) hth
                  obtain ⟨q1, hq1, hq1b⟩ := pyDivIntFloat_small hxib hswne
                  obtain ⟨q2, hq2⟩ := pyMulFloatInt_small hq1b hWb
                  obtain ⟨q3, hq3, hq3b⟩ := pyDivIntFloat_small hyib hshne
                  obtain ⟨q4, hq4⟩ := pyMulFloatInt_small hq3b hHb
                  refine ⟨[.moveTo (geo.x + ratTrunc q2)
                    (geo.y + ratTrunc q4)], ?_⟩
                  simp only [hxi, hswq, hq1, hq2, intOfFloat, hyi, hshq,
                    hq3, hq4]
              · rw [if_neg hgate]
                exact raw_move_ok hxf hyf
    · rw [if_neg hmove]
      rw [if_neg hmove] at hw
      have hm' : isTag (getN fields ("type".data)) "move" = false :=
        Bool.eq_false_iff.mpr hmove
      by_cases hpress : isTag (getN fields ("type".data)) "press" = true
      · rw [if_pos hpress]
        have hor : (isTag (getN fields ("type".data)) "press" ||
            isTag (getN fields ("type".data)) "release") = true := by
          rw [hpress, Bool.true_or]
        rw [if_pos hor] at hw
        obtain ⟨r, hr⟩ := map_button_ok hw
        cases r with
        | none => exact ⟨[], by simp only [hr]⟩
        | some b => exact ⟨[.press b], by simp only [hr]⟩
      · rw [if_neg hpress]
        by_cases hrel : isTag (getN fields ("type".data)) "release" = true
        · rw [if_pos hrel]
          have hor : (isTag (getN fields ("type".data)) "press" ||
              isTag (getN fields ("type".data)) "release") = true := by
            rw [hrel, Bool.or_true]
          rw [if_pos hor] at hw
          obtain ⟨r, hr⟩ := map_button_ok hw
          cases r with
          | none => exact ⟨[], by simp only [hr]⟩
          | some b => exact ⟨[.release b], by simp only [hr]⟩
        · rw [if_neg hrel]
          have hp' : isTag (getN fields ("type".data)) "press" = false :=
            Bool.eq_false_iff.mpr hpress
          have hr' : isTag (getN fields ("type".data)) "release" = false :=
            Bool.eq_false_iff.mpr hrel
          have hor : (isTag (getN fields ("type".data)) "press" ||
              isTag (getN fields ("type".data)) "release") = false := by
            rw [hp', hr']
            rfl
          rw [hor] at hw
          rw [if_neg Bool.false_ne_true] at hw
          by_cases hscroll : isTag (getN fields ("type".data)) "scroll" = true
          · rw [if_pos hscroll]
            rw [if_pos hscroll] at hw
            simp only [Bool.and_eq_true] at hw
            obtain ⟨hdx, hdy⟩ := hw
            cases hlx : lookupLast fields ("dx".data) with
            | none =>
              cases hly : lookupLast fields ("dy".data) with
              | none => exact ⟨[.scroll 0 0], rfl⟩
              | some v =>
                rw [hly] at hdy
                obtain ⟨dy, hdyv⟩ :=
                  pyInt_intSafe (by simpa [scrollFieldOk] using hdy)
                exact ⟨[.scroll 0 dy], by simp only [hdyv]; rfl⟩
            | some u =>
              rw [hlx] at hdx
              obtain ⟨dx, hdxv⟩ :=
                pyInt_intSafe (by simpa [scrollFieldOk] using hdx)
              cases hly : lookupLast fields ("dy".data) with
              | none => exact ⟨[.scroll dx 0], by simp only [hdxv]; rfl⟩
              | some v =>
                rw [hly] at hdy
                obtain ⟨dy, hdyv⟩ :=
                  pyInt_intSafe (by simpa [scrollFieldOk] using hdy)
                exact ⟨[.scroll dx dy], by simp only [hdxv, hdyv]⟩
          · rw [if_neg hscroll]
            exact ⟨[], rfl⟩

theorem scaled_move_remaps (xr yr sw sh : Int) (geo : QRect)
    (hxr : xr.natAbs ≤ 2 ^ 53) (hyr : yr.natAbs ≤ 2 ^ 53)
    (hsw : sw.natAbs ≤ 2 ^ 53) (hsh : sh.natAbs ≤ 2 ^ 53)
    (hswne : sw ≠ 0) (hshne : sh ≠ 0)
    (hd : displayOk (some geo) = true) :
    ∃ nx ny : Int, remapAxis xr sw geo.width = .ok nx ∧
      remapAxis yr sh geo.height = .ok ny ∧
      handle_payload (scaledMovePayload xr yr sw sh) (some geo) =
        .ok [.moveTo (geo.x + nx) (geo.y + ny)] := by
  obtain ⟨hWb, hHb⟩ := displayOk_bounds hd
  obtain ⟨q1, hq1, hq1b⟩ := pyDivIntFloat_small hxr hswne
  obtain ⟨q2, hq2⟩ := pyMulFloatInt_small hq1b hWb
  obtain ⟨q3, hq3, hq3b⟩ := pyDivIntFloat_small hyr hshne
  obtain ⟨q4, hq4⟩ := pyMulFloatInt_small hq3b hHb
  have h1 : pyTruthy (Json.intNum sw) = true := decide_eq_true hswne
  have h2 : pyTruthy (Json.intNum sh) = true := decide_eq_true hshne
  refine ⟨ratTrunc q2, ratTrunc q4, ?_, ?_, ?_⟩
  · unfold remapAxis
    simp only [floatOfInt_small hsw, hq1, hq2, intOfFloat]
  · unfold remapAxis
    simp only [floatOfInt_small hsh, hq3, hq4, intOfFloat]
  · simp +decide [scaledMovePayload, handle_payload, getN, lookupLast,
      List.foldl, isTag, h1, h2, pyInt, pyFloat, floatOfInt_small hsw,
      floatOfInt_small hsh, hq1, hq2, hq3, hq4, intOfFloat]

/-! ## Claim theorems -/

/-- C1, counterexample: the claim says `set_threshold` resets the `inCorner`
latch, but on a watcher whose latch is set, `set_threshold` leaves it set. -/
theorem c1_counterexample :
    ¬ ((set_threshold latchedWatcher 50).in_corner = false) := by
  decide

/-- C1, amended: `set_position`, `set_screen_name` and `set_enabled` each
reset the `_in_corner` latch to false regardless of its prior value;
`set_threshold` only clamps and stores the new threshold, leaving the latch
(and every other field) unchanged. -/
theorem c1_config_reset (w : CornerWatcher) (t : Int) (p : String)
    (n : Option String) (b : Bool) :
    (set_position w p).in_corner = false ∧
    (set_screen_name w n).in_corner = false ∧
    (set_enabled w b).in_corner = false ∧
    set_threshold w t = { w with threshold_px := max 1 t } :=
  ⟨rfl, rfl, rfl, rfl⟩

/-- C4, counterexample: the claim says a cycle with no display data clears a
set latch; in the code `_poll_cursor` returns before the edge-detection
logic, so the latch stays set. -/
theorem c4_counterexample :
    ¬ ((poll_cursor latchedWatcher 0 0 []).1.in_corner = false) := by
  decide

/-- C4, amended: a poll cycle with an empty display topology raises no error
and is a complete no-op: no notification fires and the whole watcher state
(including a latched `_in_corner`) is left unchanged — the latch is not
cleared. -/
theorem c4_empty_screens (w : CornerWatcher) (x y : Int) :
    poll_cursor w x y [] = (w, false) := by
  cases he : w.enabled <;> simp [poll_cursor, he]

/-- C9: when the broadcaster is not running — as after `__init__` and after
`stop`, both of which leave `running = false` — `broadcast` returns at once
without sending to any peer and without touching the registry. -/
theorem c9_broadcast_not_running (s : MouseSocketServer) (f : Nat → Bool)
    (h : s.running = false) :
    broadcast s f = (s, []) ∧
    (MouseSocketServer.stop s).running = false ∧
    MouseSocketServer.init.running = false :=
  ⟨by simp [broadcast, h], rfl, rfl⟩

theorem c9_witness :
    MouseSocketServer.init.running = false ∧
    broadcast MouseSocketServer.init (fun _ => true) =
      (MouseSocketServer.init, []) :=
  ⟨rfl, (c9_broadcast_not_running MouseSocketServer.init (fun _ => true)
    rfl).1⟩

/-- C5: the containment test implements exactly the §4.3 corner formulas,
any position other than the four recognized ones behaves as bottom-left,
and the three §8 scenario points evaluate as the spec says. -/
theorem c5_containment (g : QRect) (x y t : Int) (p : String)
    (h1 : p ≠ "bottom-right") (h2 : p ≠ "top-left") (h3 : p ≠ "top-right") :
    (is_in_corner g x y t "bottom-left" = true ↔
      x ≤ g.x + t ∧ y ≥ g.y + g.height - t) ∧
    (is_in_corner g x y t "bottom-right" = true ↔
      x ≥ g.x + g.width - t ∧ y ≥ g.y + g.height - t) ∧
    (is_in_corner g x y t "top-left" = true ↔
      x ≤ g.x + t ∧ y ≤ g.y + t) ∧
    (is_in_corner g x y t "top-right" = true ↔
      x ≥ g.x + g.width - t ∧ y ≤ g.y + t) ∧
    is_in_corner g x y t p = is_in_corner g x y t "bottom-left" ∧
    is_in_corner ⟨0, 0, 1920, 1080⟩ 30 1050 60 "bottom-left" = true ∧
    is_in_corner ⟨0, 0, 1920, 1080⟩ 100 1050 60 "bottom-left" = false ∧
    is_in_corner ⟨0, 0, 1920, 1080⟩ 30 1000 60 "bottom-left" = false := by
  refine ⟨by simp [is_in_corner], by simp [is_in_corner],
    by simp [is_in_corner], by simp [is_in_corner], ?_, by decide, by decide,
    by decide⟩
  by_cases hp : p = "bottom-left" <;> simp [is_in_corner, hp, h1, h2, h3]

theorem c5_witness :
    ("center" ≠ "bottom-right") ∧ ("center" ≠ "top-left") ∧
    ("center" ≠ "top-right") ∧
    ((is_in_corner ⟨0, 0, 1920, 1080⟩ 30 1050 60 "bottom-left" = true ↔
        (30 : Int) ≤ 0 + 60 ∧ (1050 : Int) ≥ 0 + 1080 - 60) ∧
      (is_in_corner ⟨0, 0, 1920, 1080⟩ 30 1050 60 "bottom-right" = true ↔
        (30 : Int) ≥ 0 + 1920 - 60 ∧ (1050 : Int) ≥ 0 + 1080 - 60) ∧
      (is_in_corner ⟨0, 0, 1920, 1080⟩ 30 1050 60 "top-left" = true ↔
        (30 : Int) ≤ 0 + 60 ∧ (1050 : Int) ≤ 0 + 60) ∧
      (is_in_corner ⟨0, 0, 1920, 1080⟩ 30 1050 60 "top-right" = true ↔
        (30 : Int) ≥ 0 + 1920 - 60 ∧ (1050 : Int) ≤ 0 + 60) ∧
      is_in_corner ⟨0, 0, 1920, 1080⟩ 30 1050 60 "center" =
        is_in_corner ⟨0, 0, 1920, 1080⟩ 30 1050 60 "bottom-left" ∧
      is_in_corner ⟨0, 0, 1920, 1080⟩ 30 1050 60 "bottom-left" = true ∧
      is_in_corner ⟨0, 0, 1920, 1080⟩ 100 1050 60 "bottom-left" = false ∧
      is_in_corner ⟨0, 0, 1920, 1080⟩ 30 1000 60 "bottom-left" = false) :=
  ⟨by decide, by decide, by decide,
    c5_containment ⟨0, 0, 1920, 1080⟩ 30 1050 60 "center" (by decide)
      (by decide) (by decide)⟩

/-- C6: with the watcher enabled and displays present, a poll fires the
enter notification exactly on a false-to-true transition of containment
(never while the latch is already set, never on a true-to-false
transition, whose only effect is clearing the latch), the latch always
ends equal to the containment result, and in the §8 scenarios a stationary
in-zone cursor fires once over three polls while leave-and-re-enter fires
twice. -/
theorem c6_edge_trigger (w : CornerWatcher) (x y : Int)
    (screens : List Screen) (h1 : w.enabled = true) (h2 : screens ≠ []) :
    ((poll_cursor w x y screens).2 = true ↔
      in_any_corner w x y screens = true ∧ w.in_corner = false) ∧
    (poll_cursor w x y screens).1.in_corner = in_any_corner w x y screens ∧
    (poll_run watcher0 [(30, 1050), (30, 1050), (30, 1050)] [demoScreen]).2 =
      1 ∧
    (poll_run watcher0 [(30, 1050), (500, 500), (30, 1050)] [demoScreen]).2 =
      2 := by
  refine ⟨?_, ?_, by decide, by decide⟩ <;>
    cases hhit : in_any_corner w x y screens <;>
      cases hin : w.in_corner <;>
        simp [poll_cursor, h1, h2, hhit, hin]

theorem c6_witness :
    watcher0.enabled = true ∧ ([demoScreen] ≠ ([] : List Screen)) ∧
    (((poll_cursor watcher0 30 1050 [demoScreen]).2 = true ↔
        in_any_corner watcher0 30 1050 [demoScreen] = true ∧
          watcher0.in_corner = false) ∧
      (poll_cursor watcher0 30 1050 [demoScreen]).1.in_corner =
        in_any_corner watcher0 30 1050 [demoScreen] ∧
      (poll_run watcher0 [(30, 1050), (30, 1050), (30, 1050)]
        [demoScreen]).2 = 1 ∧
      (poll_run watcher0 [(30, 1050), (500, 500), (30, 1050)]
        [demoScreen]).2 = 2) :=
  ⟨rfl, by decide,
    c6_edge_trigger watcher0 30 1050 [demoScreen] rfl (by decide)⟩

/-- Erasing each member of `st` once from a duplicate-free list keeps
exactly the elements outside `st` (the shape of `broadcast`'s stale-peer
removal loop). -/
theorem foldl_erase_filter (st : List Nat) (acc : List Nat)
    (h : acc.Nodup) :
    st.foldl (fun cs c => if cs.contains c then cs.erase c else cs) acc =
      acc.filter (fun a => !st.contains a) := by
  induction st generalizing acc with
  | nil => simp
  | cons c st ih =>
    have hstep :
        (if acc.contains c then acc.erase c else acc) = acc.erase c := by
      by_cases hc : acc.contains c = true
      · rw [if_pos hc]
      · rw [if_neg (by simpa using hc)]
        exact (List.erase_of_not_mem (by simpa using hc)).symm
    rw [List.foldl_cons, hstep, ih (acc.erase c) (h.erase c),
      h.erase_eq_filter c, List.filter_filter]
    refine List.filter_congr ?_
    intro a _
    by_cases hac : a = c <;> simp [hac]

/-- C7: when running, `broadcast` delivers the frame to exactly the peers
whose write succeeds — one peer's `OSError` never blocks the others — and
then closes and removes exactly the failed peers from the registry; in the
§8 scenario with peers `0` and `1` where the write to `0` fails, peer `1`
still receives the frame, the registry afterwards holds only `1`, and a
subsequent broadcast reaches only `1`. -/
theorem c7_stale_eviction (s : MouseSocketServer) (f : Nat → Bool)
    (h : s.running = true) :
    (broadcast s f).2 = s.clients.filter (fun c => !f c) ∧
    (s.clients.Nodup →
      (broadcast s f).1.clients = s.clients.filter (fun c => !f c)) ∧
    (broadcast ⟨true, [0, 1]⟩ (fun c => decide (c = 0))).2 = [1] ∧
    (broadcast ⟨true, [0, 1]⟩ (fun c => decide (c = 0))).1.clients = [1] ∧
    (broadcast (broadcast ⟨true, [0, 1]⟩ (fun c => decide (c = 0))).1
      (fun _ => false)).2 = [1] := by
  refine ⟨by simp [broadcast, h], ?_, by decide, by decide, by decide⟩
  intro hnd
  simp only [broadcast, h]
  rw [if_neg (by simp)]
  simp only
  rw [foldl_erase_filter (s.clients.filter (fun c => f c)) s.clients hnd]
  refine List.filter_congr ?_
  intro a ha
  by_cases hfa : f a = true <;> simp [hfa, List.mem_filter, ha]

theorem c7_witness :
    (MouseSocketServer.running ⟨true, [0, 1]⟩ = true) ∧
    ((broadcast ⟨true, [0, 1]⟩ (fun c => decide (c = 0))).2 =
        List.filter (fun c => !decide (c = 0)) [0, 1] ∧
      (List.Nodup [0, 1] →
        (broadcast ⟨true, [0, 1]⟩ (fun c => decide (c = 0))).1.clients =
          List.filter (fun c => !decide (c = 0)) [0, 1]) ∧
      (broadcast ⟨true, [0, 1]⟩ (fun c => decide (c = 0))).2 = [1] ∧
      (broadcast ⟨true, [0, 1]⟩ (fun c => decide (c = 0))).1.clients = [1] ∧
      (broadcast (broadcast ⟨true, [0, 1]⟩ (fun c => decide (c = 0))).1
        (fun _ => false)).2 = [1]) :=
  ⟨rfl, c7_stale_eviction ⟨true, [0, 1]⟩ (fun c => decide (c = 0)) rfl⟩

/-- C10: button decoding is case-insensitive substring matching — for every
string, `map_button` returns `left` when the lowercased name contains
"left", else `right` when it contains "right", else `middle` when it
contains "middle" or "wheel", else nothing, and `None` maps to nothing —
and consequently press/release frames whose button is the Qt enum name
"LeftButton" (what the origin's `event.button().name` sends) are injected
as left-button events. -/
theorem c10_button_mapping (s : List Char) (ld : Option QRect) :
    (map_button (some (.str s)) =
      .ok (let l := s.map Char.toLower
        if containsSub "left".data l then some .left
        else if containsSub "right".data l then some .right
        else if containsSub "middle".data l || containsSub "wheel".data l
          then some .middle
        else none)) ∧
    map_button none = .ok none ∧
    handle_payload (.obj [("type".data, .str "press".data),
      ("button".data, .str "LeftButton".data)]) ld = .ok [.press .left] ∧
    handle_payload (.obj [("type".data, .str "release".data),
      ("button".data, .str "LeftButton".data)]) ld = .ok [.release .left] := by
  refine ⟨?_, rfl, rfl, rfl⟩
  cases s with
  | nil => rfl
  | cons c t =>
    simp only [map_button, pyTruthy, List.isEmpty_cons, Bool.not_false]
    split_ifs <;> first | rfl | contradiction

theorem splitFirstNl_length {buf l r : List Nat}
    (h : splitFirstNl buf = some (l, r)) : r.length < buf.length := by
  induction buf generalizing l r with
  | nil => simp [splitFirstNl] at h
  | cons b rest ih =>
    by_cases hb : b = 10
    · simp [splitFirstNl, hb] at h
      simp [← h.2, List.length_cons]
    · simp only [splitFirstNl, hb, if_false] at h
      match hs : splitFirstNl rest with
      | some (l', r') =>
        rw [hs] at h
        simp at h
        have := ih hs
        rw [← h.2]
        simp [List.length_cons]
        omega
      | none => rw [hs] at h; simp at h

theorem scanBytes_of_none {b : List Nat} (cur : List Nat)
    (h : splitFirstNl b = none) :
    scanBytes cur b = ([], cur.reverse ++ b) := by
  induction b generalizing cur with
  | nil => simp [scanBytes]
  | cons a t ih =>
    simp only [splitFirstNl] at h
    by_cases ha : a = 10
    · rw [if_pos ha] at h; cases h
    · rw [if_neg ha] at h
      have ht : splitFirstNl t = none := by
        cases hs : splitFirstNl t with
        | none => rfl
        | some p => obtain ⟨l, r⟩ := p; rw [hs] at h; cases h
      simp [scanBytes, ha, ih cur ht, ih (a :: cur) ht]

theorem scanBytes_of_some {b l r : List Nat} (cur : List Nat)
    (h : splitFirstNl b = some (l, r)) :
    scanBytes cur b =
      ((cur.reverse ++ l) :: (scanBytes [] r).1, (scanBytes [] r).2) := by
  induction b generalizing cur l with
  | nil => cases h
  | cons a t ih =>
    simp only [splitFirstNl] at h
    by_cases ha : a = 10
    · rw [if_pos ha] at h
      simp only [Option.some.injEq, Prod.mk.injEq] at h
      obtain ⟨rfl, rfl⟩ := h
      simp [scanBytes, ha]
    · rw [if_neg ha] at h
      cases hs : splitFirstNl t with
      | none => rw [hs] at h; cases h
      | some p =>
        obtain ⟨l', r'⟩ := p
        rw [hs] at h
        simp only [Option.some.injEq, Prod.mk.injEq] at h
        obtain ⟨rfl, rfl⟩ := h
        simp [scanBytes, ha, ih (a :: cur) hs]

theorem extractLines_of_none {b : List Nat} (h : splitFirstNl b = none) :
    extractLines b = ([], b) := by
  simp [extractLines, scanBytes_of_none [] h]

theorem extractLines_of_some {b l r : List Nat}
    (h : splitFirstNl b = some (l, r)) :
    extractLines b = (l :: (extractLines r).1, (extractLines r).2) := by
  simp [extractLines, scanBytes_of_some [] h]

theorem extractLines_rest (b : List Nat) :
    splitFirstNl (extractLines b).2 = none := by
  have H : ∀ (n : Nat) (b : List Nat), b.length ≤ n →
      splitFirstNl (extractLines b).2 = none := by
    intro n
    induction n with
    | zero =>
      intro b hb
      have hb' : b = [] := List.eq_nil_of_length_eq_zero (Nat.le_zero.mp hb)
      subst hb'
      rfl
    | succ n ih =>
      intro b hb
      cases hs : splitFirstNl b with
      | none => rw [extractLines_of_none hs]; exact hs
      | some p =>
        obtain ⟨l, r⟩ := p
        rw [extractLines_of_some hs]
        have := splitFirstNl_length hs
        exact ih r (by omega)
  exact H b.length b le_rfl

theorem splitFirstNl_append_some {b l r : List Nat} (c : List Nat)
    (h : splitFirstNl b = some (l, r)) :
    splitFirstNl (b ++ c) = some (l, r ++ c) := by
  induction b generalizing l with
  | nil => cases h
  | cons a t ih =>
    simp only [splitFirstNl] at h
    simp only [List.cons_append, splitFirstNl]
    by_cases ha : a = 10
    · rw [if_pos ha] at h ⊢
      simp only [Option.some.injEq, Prod.mk.injEq] at h
      obtain ⟨rfl, rfl⟩ := h
      simp
    · rw [if_neg ha] at h ⊢
      cases hs : splitFirstNl t with
      | none => rw [hs] at h; cases h
      | some p =>
        obtain ⟨l', r'⟩ := p
        rw [hs] at h
        simp only [Option.some.injEq, Prod.mk.injEq] at h
        obtain ⟨rfl, rfl⟩ := h
        simp only [List.append_eq]
        rw [ih hs]

theorem extractLines_append (b c : List Nat) :
    extractLines (b ++ c) =
      ((extractLines b).1 ++ (extractLines ((extractLines b).2 ++ c)).1,
        (extractLines ((extractLines b).2 ++ c)).2) := by
  have H : ∀ (n : Nat) (b : List Nat), b.length ≤ n →
      extractLines (b ++ c) =
        ((extractLines b).1 ++ (extractLines ((extractLines b).2 ++ c)).1,
          (extractLines ((extractLines b).2 ++ c)).2) := by
    intro n
    induction n with
    | zero =>
      intro b hb
      have hb' : b = [] := List.eq_nil_of_length_eq_zero (Nat.le_zero.mp hb)
      subst hb'
      rfl
    | succ n ih =>
      intro b hb
      cases hs : splitFirstNl b with
      | none => rw [extractLines_of_none hs]; simp
      | some p =>
        obtain ⟨l, r⟩ := p
        rw [extractLines_of_some hs,
          extractLines_of_some (splitFirstNl_append_some c hs)]
        have := splitFirstNl_length hs
        rw [ih r (by omega)]
        simp
  exact H b.length b le_rfl

theorem feedChunks_from (chunks : List (List Nat)) :
    ∀ (ls : List (List Nat)) (buf : List Nat), splitFirstNl buf = none →
      chunks.foldl
        (fun acc chunk =>
          let p := extractLines (acc.2 ++ chunk)
          (acc.1 ++ p.1, p.2)) (ls, buf) =
      (ls ++ (extractLines (buf ++ chunks.foldr (· ++ ·) [])).1,
        (extractLines (buf ++ chunks.foldr (· ++ ·) [])).2) := by
  induction chunks with
  | nil =>
    intro ls buf h
    simp [extractLines_of_none h]
  | cons ch rest ih =>
    intro ls buf h
    simp only [List.foldl_cons, List.foldr_cons]
    rw [ih (ls ++ (extractLines (buf ++ ch)).1) (extractLines (buf ++ ch)).2
      (extractLines_rest _)]
    rw [show buf ++ (ch ++ rest.foldr (· ++ ·) []) =
      (buf ++ ch) ++ rest.foldr (· ++ ·) [] from (List.append_assoc ..).symm]
    rw [extractLines_append (buf ++ ch) (rest.foldr (· ++ ·) [])]
    simp [List.append_assoc]

/-- C8: frame reassembly is split-invariant — feeding any list of chunks
through the receive-buffer loop produces exactly the same lines and final
buffer as feeding their concatenation in one read — and on the §8
scenario reads (a move frame plus a mid-object split press frame) the
decoded payloads are exactly `Move{10,20}` then `Press{left}` with an
empty final buffer. -/
theorem c8_reassembly :
    (∀ chunks : List (List Nat),
      feedChunks chunks = feedChunks [chunks.foldr (· ++ ·) []]) ∧
    decodedPayloads (feedChunks [chunkA, chunkB]).1 =
      [movePayload1020, pressLeftPayload] ∧
    (feedChunks [chunkA, chunkB]).2 = [] := by
  refine ⟨?_, by rfl, by rfl⟩
  intro chunks
  show List.foldl _ ([], []) chunks = List.foldl _ ([], []) _
  rw [feedChunks_from chunks [] [] rfl, feedChunks_from [chunks.foldr (· ++ ·) []] [] [] rfl]
  simp


/-- C2, counterexample: per-line processing is not total and ill-typed
fields are not silently ignored — a non-UTF-8 line raises
`UnicodeDecodeError` (only `json.JSONDecodeError` is caught); a JSON line
that is not an object (`[1, 2]`, or the bare `NaN` that `json.loads`
accepts) raises `AttributeError` at `payload.get`; a press frame whose
`button` is a truthy non-string raises `AttributeError` at `.lower()`; and
a scroll frame whose delta decodes to the double `inf` (JSON `1e309`)
raises `OverflowError` in `int()`. -/
theorem c2_counterexample :
    processLine [0xFF] none = .error .unicodeDecodeError ∧
    processLine (strBytes "[1, 2]") none = .error .attributeError ∧
    processLine (strBytes "NaN") none = .error .attributeError ∧
    processLine (strBytes "\x7b\"type\": \"press\", \"button\": 1\x7d")
      none = .error .attributeError ∧
    processLine (strBytes "\x7b\"type\": \"scroll\", \"dx\": 1e309\x7d")
      none = .error .overflowError := by
  refine ⟨by with_unfolding_all rfl, by with_unfolding_all rfl,
    by with_unfolding_all rfl, by with_unfolding_all rfl,
    by with_unfolding_all rfl⟩

/-- C2, amended: lines that fail JSON decoding are swallowed with no
injection and the loop continues; objects with an unknown (or missing)
`type` are silently ignored; and on every JSON object whose fields are
well-typed for their declared type (bounded ints or bools in the
scaled-move fields, ints or finite floats in `x`/`y`/`dx`/`dy`, a string
or falsy `button`), with a sane local display, dispatch never throws. But
totality holds only on such frames — non-UTF-8 lines, non-object JSON and
ill-typed fields raise (see the counterexample) — and a scroll frame with
missing deltas is not ignored but injects `scroll(0, 0)`, while a move
frame missing both `x_rel` and `x` causes no injection. -/
theorem c2_amended :
    (∀ (line : List Nat) (cs : List Char) (ld : Option QRect),
      utf8Decode line = some cs → json_loads cs = none →
      processLine line ld = .ok []) ∧
    (∀ (fields : List (List Char × Json)) (ld : Option QRect),
      isTag (getN fields ("type".data)) "move" = false →
      isTag (getN fields ("type".data)) "press" = false →
      isTag (getN fields ("type".data)) "release" = false →
      isTag (getN fields ("type".data)) "scroll" = false →
      handle_payload (.obj fields) ld = .ok []) ∧
    (∀ (p : Json) (ld : Option QRect), wellTyped p = true →
      displayOk ld = true → ∃ calls, handle_payload p ld = .ok calls) ∧
    (∀ (fields : List (List Char × Json)) (ld : Option QRect),
      isTag (getN fields ("type".data)) "move" = true →
      getN fields ("x_rel".data) = none → getN fields ("x".data) = none →
      handle_payload (.obj fields) ld = .ok []) ∧
    (∀ (ld : Option QRect),
      handle_payload (.obj [("type".data, .str "scroll".data)]) ld =
        .ok [.scroll 0 0]) := by
  refine ⟨?_, ?_, ?_, ?_, ?_⟩
  · intro line cs ld hdec hjson
    unfold processLine
    by_cases hb : isBlankLine line = true
    · rw [if_pos hb]
    · rw [if_neg hb]
      simp only [hdec, hjson]
  · intro fields ld hm hp hr hs
    simp only [handle_payload]
    rw [hm, hp, hr, hs]
    simp only [Bool.false_eq_true, if_false]
  · exact fun p ld hw hd => handle_payload_total p ld hw hd
  · intro fields ld htag hxrel hx
    simp only [handle_payload]
    rw [if_pos htag]
    simp only [hxrel, raw_move, hx]
  · intro ld
    with_unfolding_all rfl

/-- C2, witness: a plain-text line is swallowed as a JSON decode failure,
and a well-typed scaled move frame dispatches without an exception. -/
theorem c2_witness :
    processLine (strBytes "oops") none = .ok [] ∧
    (∃ calls, handle_payload (scaledMovePayload 960 540 1920 1080)
      (some ⟨0, 0, 2560, 1440⟩) = .ok calls) :=
  ⟨c2_amended.1 (strBytes "oops") ("oops".data) none
      (by with_unfolding_all rfl) (by with_unfolding_all rfl),
    c2_amended.2.2.1 (scaledMovePayload 960 540 1920 1080)
      (some ⟨0, 0, 2560, 1440⟩) (by with_unfolding_all rfl)
      (by with_unfolding_all rfl)⟩

/-- C3, counterexample: the claim says the scaled coordinate is computed
with `round`; the code truncates the binary64 product with `int()`. With
`x_rel = 2`, origin `1920x1080` and local display `(0, 0, 2560, 1440)`,
the code injects `x = 2` while the claimed formula rounds
`2 / 1920 * 2560 = 8/3` to `3`. -/
theorem c3_counterexample :
    handle_payload (scaledMovePayload 2 540 1920 1080)
      (some ⟨0, 0, 2560, 1440⟩) = .ok [.moveTo 2 720] ∧
    specRound ((2 : ℚ) / 1920 * 2560) = 3 := by
  constructor
  · with_unfolding_all rfl
  · with_unfolding_all rfl

/-- C3, amended: for a move frame carrying all four relative fields (as
ints of reasonable magnitude) with nonzero origin dimensions and a sane
local display, the receiver injects `localDisplay.x + nx` and
`localDisplay.y + ny` where `nx`, `ny` are the per-axis remaps
`int(int(rel) / float(origin) * target)` evaluated in IEEE-754 binary64
and truncated toward zero — not `round`, and not exact rational
arithmetic: the 960/540 on 1920x1080 → (0,0,2560,1440) scenario still
yields (1280, 720) because those quotients are exact dyadics, but
`int(1/49 * 49)` is `0` in the code while exact-rational truncation gives
`1`. If a relative field is absent, an origin dimension is zero (falsy),
or no local display is available, the raw absolute `(x, y)` is injected
when present. -/
theorem c3_amended :
    (∀ (xr yr sw sh : Int) (geo : QRect),
      xr.natAbs ≤ 2 ^ 53 → yr.natAbs ≤ 2 ^ 53 →
      sw.natAbs ≤ 2 ^ 53 → sh.natAbs ≤ 2 ^ 53 → sw ≠ 0 → sh ≠ 0 →
      displayOk (some geo) = true →
      ∃ nx ny : Int, remapAxis xr sw geo.width = .ok nx ∧
        remapAxis yr sh geo.height = .ok ny ∧
        handle_payload (scaledMovePayload xr yr sw sh) (some geo) =
          .ok [.moveTo (geo.x + nx) (geo.y + ny)]) ∧
    (remapAxis 960 1920 2560 = .ok 1280 ∧
      remapAxis 540 1080 1440 = .ok 720 ∧
      handle_payload (scaledMovePayload 960 540 1920 1080)
        (some ⟨0, 0, 2560, 1440⟩) = .ok [.moveTo 1280 720]) ∧
    (remapAxis 1 49 49 = .ok 0 ∧ ratTrunc ((1 : ℚ) / 49 * 49) = 1) ∧
    (∀ (x y : Int) (ld : Option QRect),
      handle_payload (rawMovePayload x y) ld = .ok [.moveTo x y]) ∧
    (∀ (a b c x y : Int) (ld : Option QRect),
      handle_payload (fullMovePayload a b 0 c x y) ld =
        .ok [.moveTo x y]) ∧
    (∀ (x y : Int),
      handle_payload (fullMovePayload 1 1 1920 1080 x y) none =
        .ok [.moveTo x y]) := by
  refine ⟨scaled_move_remaps, ?_, ?_, ?_, ?_, ?_⟩
  · refine ⟨?_, ?_, ?_⟩ <;> with_unfolding_all rfl
  · exact ⟨by with_unfolding_all rfl, by with_unfolding_all rfl⟩
  · intro x y ld
    with_unfolding_all rfl
  · intro a b c x y ld
    with_unfolding_all rfl
  · intro x y
    with_unfolding_all rfl

/-- C3, witness: the spec's own scenario through the amended statement —
both axis remaps succeed and the injected point is (1280, 720). -/
theorem c3_witness :
    ∃ nx ny : Int, remapAxis 960 1920 2560 = .ok nx ∧
      remapAxis 540 1080 1440 = .ok ny ∧
      handle_payload (scaledMovePayload 960 540 1920 1080)
        (some ⟨0, 0, 2560, 1440⟩) = .ok [.moveTo (0 + nx) (0 + ny)] :=
  c3_amended.1 960 540 1920 1080 ⟨0, 0, 2560, 1440⟩ (by decide) (by decide)
    (by decide) (by decide) (by decide) (by decide) (by decide)

end CrossCursors
